import Mathlib

/-!
Verification of the R2 object-storage client in `packages/storage/src/r2.ts`.

The development shallowly embeds the parts of the client that the verified
properties are about: the AWS Signature V4 signing routine (`signRequest`),
the object operations (`put`, `head`, `delete`, `get`/`getText`/`getJson`,
`exists`, `copy`, `list`, `listAll`) expressed as pure functions of the
transport response they observe, the XML scanning used by `list`, and the
connection-string functions `parseR2Url` / `toR2Url` together with a model
of the WHATWG URL machinery they rely on (`new URL`, the username/password
setters, `searchParams`, `encodeURIComponent` / `decodeURIComponent`).

JavaScript strings are modelled as Lean `String` / `List Char` (sequences of
Unicode scalar values); plain-object records with string keys are modelled as
association lists in insertion order with last-write-wins update, matching
`Object.entries` / `Object.keys` enumeration order for non-index keys.
-/

namespace R2Spec

/-- Record assignment `m[k] = v` on a JS object modelled as an insertion-ordered
association list: overwrite in place if the key exists, else append.  (The
records the client builds are duplicate-free, so first-occurrence overwrite
coincides with JS object assignment.) -/
def recordSet : List (String × String) → String → String → List (String × String)
  | [], k, v => [(k, v)]
  | (a, b) :: rest, k, v =>
    if a = k then (k, v) :: rest else (a, b) :: recordSet rest k v

/-- Record lookup `m[k]`, `none` when the key is absent. -/
def recordGet (m : List (String × String)) (k : String) : Option String :=
  (m.find? (fun kv => kv.1 = k)).map (fun kv => kv.2)

/-- Lowercasing of a header name, `k.toLowerCase()` restricted to ASCII
(header names in this client are ASCII). -/
def lowerStr (s : String) : String :=
  ⟨s.data.map Char.toLower⟩

/-- Whitespace recognised by JavaScript `String.prototype.trim`. -/
def jsWs (c : Char) : Bool :=
  c.toNat = 9 ∨ c.toNat = 10 ∨ c.toNat = 11 ∨ c.toNat = 12 ∨ c.toNat = 13 ∨
  c.toNat = 32 ∨ c.toNat = 160 ∨ c.toNat = 0xFEFF ∨ c.toNat = 0x1680 ∨
  (0x2000 ≤ c.toNat ∧ c.toNat ≤ 0x200A) ∨ c.toNat = 0x2028 ∨ c.toNat = 0x2029 ∨
  c.toNat = 0x202F ∨ c.toNat = 0x205F ∨ c.toNat = 0x3000

/-- Model of `s.trim()`. -/
def jsTrim (s : String) : String :=
  ⟨((s.data.dropWhile jsWs).reverse.dropWhile jsWs).reverse⟩

/-- Join a list of strings with `\n`, modelling `Array.prototype.join("\n")`. -/
def joinNL (l : List String) : String :=
  String.intercalate "\n" l

/-- Join a list of strings with `;`, modelling `Array.prototype.join(";")`. -/
def joinSemi (l : List String) : String :=
  String.intercalate ";" l

/-- Sorting of string keys, modelling `Array.prototype.sort()` (lexicographic;
code-point order, which agrees with UTF-16 code-unit order on the strings the
client sorts). -/
def sortStrings (l : List String) : List String :=
  l.mergeSort (fun a b => a ≤ b)

/-- Check whether `pat` occurs as a contiguous subsequence of `l`, modelling
`String.prototype.includes`. -/
def containsSeq (l pat : List Char) : Bool :=
  match l with
  | [] => pat.isEmpty
  | _ :: rest => pat.isPrefixOf l || containsSeq rest pat

/-- Hex digit for `n < 16`, uppercase (as produced by percent-encoding). -/
def hexDigitU (n : Nat) : Char :=
  if n < 10 then Char.ofNat (48 + n) else Char.ofNat (55 + n)

/-- Hex digit for `n < 16`, lowercase (as produced by
`b.toString(16).padStart(2, "0")` over digest bytes). -/
def hexDigitL (n : Nat) : Char :=
  if n < 10 then Char.ofNat (48 + n) else Char.ofNat (87 + n)

/-- Numeric value of a hex digit character, either case. -/
def hexVal (c : Char) : Option Nat :=
  if 48 ≤ c.toNat ∧ c.toNat ≤ 57 then some (c.toNat - 48)
  else if 65 ≤ c.toNat ∧ c.toNat ≤ 70 then some (c.toNat - 55)
  else if 97 ≤ c.toNat ∧ c.toNat ≤ 102 then some (c.toNat - 87)
  else none

/-- Lowercase hex rendering of a byte list, modelling
`Array.from(new Uint8Array(buf)).map((b) => b.toString(16).padStart(2, "0")).join("")`. -/
def hexOfBytes (bs : List Nat) : String :=
  ⟨bs.flatMap (fun b => [hexDigitL (b / 16), hexDigitL (b % 16)])⟩

/-- UTF-8 encoding of one Unicode scalar value, modelling `TextEncoder`. -/
def utf8Bytes (c : Char) : List Nat :=
  let n := c.toNat
  if n < 0x80 then [n]
  else if n < 0x800 then [0xC0 + n / 64, 0x80 + n % 64]
  else if n < 0x10000 then [0xE0 + n / 4096, 0x80 + n / 64 % 64, 0x80 + n % 64]
  else [0xF0 + n / 262144, 0x80 + n / 4096 % 64, 0x80 + n / 64 % 64, 0x80 + n % 64]

/-- UTF-8 bytes of a whole string, modelling `new TextEncoder().encode(s)`. -/
def utf8Str (s : String) : List Nat :=
  s.data.flatMap utf8Bytes

/-- Percent-escape of one character: each UTF-8 byte as `%XY` with uppercase hex. -/
def pctEncodeChar (c : Char) : List Char :=
  (utf8Bytes c).flatMap (fun b => ['%', hexDigitU (b / 16), hexDigitU (b % 16)])

/-- Percent-encode a character sequence, escaping exactly the characters in
`inSet` (a WHATWG percent-encode set, or the complement of the characters a
JS encoder leaves intact). -/
def encodeSet (inSet : Char → Bool) (l : List Char) : List Char :=
  l.flatMap (fun c => if inSet c then pctEncodeChar c else [c])

/-- Characters left intact by `encodeURIComponent`: ASCII alphanumerics and
`- _ . ! ~ * ' ( )`. -/
def uriUnreserved (c : Char) : Bool :=
  c.isAlphanum || c = '-' || c = '_' || c = '.' || c = '!' || c = '~' ||
  c = '*' || c.toNat = 39 || c = '(' || c = ')'

/-- Model of `encodeURIComponent`. -/
def encodeURIComponent (s : String) : String :=
  ⟨encodeSet (fun c => !uriUnreserved c) s.data⟩

/-- Numeric value of a two-hex-digit escape body. -/
def hexPair (h₁ h₂ : Char) : Option Nat := do
  let a ← hexVal h₁
  let b ← hexVal h₂
  return 16 * a + b

/-- Turn a decoded scalar value into a character, rejecting surrogates and
out-of-range values (as the ECMAScript URI decoding algorithm does). -/
def charOfScalar (n : Nat) : Option Char :=
  if n < 0xD800 ∨ (0xE000 ≤ n ∧ n < 0x110000) then some (Char.ofNat n) else none

/-- Decode step for a two-byte UTF-8 sequence after its lead byte `b₀`;
`k` decodes the remainder. -/
def dec2 (b₀ : Nat) (k : List Nat → Option (List Char)) :
    List Nat → Option (List Char)
  | b₁ :: rest =>
    if 0x80 ≤ b₁ ∧ b₁ < 0xC0 then
      match charOfScalar ((b₀ - 0xC0) * 64 + (b₁ - 0x80)) with
      | some c => (k rest).map (fun tail => c :: tail)
      | none => none
    else none
  | _ => none

/-- Decode step for a three-byte UTF-8 sequence after its lead byte `b₀`
(rejecting overlong forms and, through `charOfScalar`, surrogates). -/
def dec3 (b₀ : Nat) (k : List Nat → Option (List Char)) :
    List Nat → Option (List Char)
  | b₁ :: b₂ :: rest =>
    if 0x80 ≤ b₁ ∧ b₁ < 0xC0 ∧ 0x80 ≤ b₂ ∧ b₂ < 0xC0 then
      if (b₀ - 0xE0) * 4096 + (b₁ - 0x80) * 64 + (b₂ - 0x80) < 0x800 then none
      else
        match charOfScalar ((b₀ - 0xE0) * 4096 + (b₁ - 0x80) * 64 + (b₂ - 0x80)) with
        | some c => (k rest).map (fun tail => c :: tail)
        | none => none
    else none
  | _ => none

/-- Decode step for a four-byte UTF-8 sequence after its lead byte `b₀`
(rejecting overlong and out-of-range forms). -/
def dec4 (b₀ : Nat) (k : List Nat → Option (List Char)) :
    List Nat → Option (List Char)
  | b₁ :: b₂ :: b₃ :: rest =>
    if 0x80 ≤ b₁ ∧ b₁ < 0xC0 ∧ 0x80 ≤ b₂ ∧ b₂ < 0xC0 ∧
       0x80 ≤ b₃ ∧ b₃ < 0xC0 then
      if (b₀ - 0xF0) * 262144 + (b₁ - 0x80) * 4096 + (b₂ - 0x80) * 64 +
           (b₃ - 0x80) < 0x10000 ∨
         0x110000 ≤ (b₀ - 0xF0) * 262144 + (b₁ - 0x80) * 4096 +
           (b₂ - 0x80) * 64 + (b₃ - 0x80) then none
      else
        match charOfScalar ((b₀ - 0xF0) * 262144 + (b₁ - 0x80) * 4096 +
            (b₂ - 0x80) * 64 + (b₃ - 0x80)) with
        | some c => (k rest).map (fun tail => c :: tail)
        | none => none
    else none
  | _ => none

/-- Fuelled strict UTF-8 decoder over bytes, rejecting malformed, overlong
and surrogate sequences (one unit of fuel per decoded character). -/
def utf8DecodeF : Nat → List Nat → Option (List Char)
  | 0, _ => none
  | _ + 1, [] => some []
  | f + 1, b₀ :: rest =>
    if b₀ < 0x80 then
      (utf8DecodeF f rest).map (fun tail => Char.ofNat b₀ :: tail)
    else if b₀ < 0xC2 then none
    else if b₀ < 0xE0 then dec2 b₀ (utf8DecodeF f) rest
    else if b₀ < 0xF0 then dec3 b₀ (utf8DecodeF f) rest
    else if b₀ < 0xF5 then dec4 b₀ (utf8DecodeF f) rest
    else none

/-- Byte sequence the ECMAScript URI decoding algorithm assembles from a
percent-encoded string: a `%XY` escape contributes the byte, any other
character contributes its UTF-8 bytes; a `%` not followed by two hex digits
is a `URIError` (`none`). -/
def pctBytes : List Char → Option (List Nat)
  | [] => some []
  | c :: r =>
    if c.toNat = 37 then
      match r with
      | h₁ :: h₂ :: r₂ =>
        match hexPair h₁ h₂ with
        | some b => (pctBytes r₂).map (fun bs => b :: bs)
        | none => none
      | _ => none
    else
      (pctBytes r).map (fun bs => utf8Bytes c ++ bs)

/-- Model of `decodeURIComponent`; `none` models a thrown `URIError`.  The
assembled byte sequence must decode as strict UTF-8 (no overlong forms, no
surrogates), matching the ECMAScript `Decode` abstract operation. -/
def decodeURIComponentM (s : String) : Option String := do
  let bs ← pctBytes s.data
  let cs ← utf8DecodeF (bs.length + 1) bs
  return ⟨cs⟩

/-!
WHATWG URL model.

`r2.ts` builds and parses URLs with `new URL(...)`, the `username`/`password`
setters, `searchParams`, and the component getters.  The model below follows
the WHATWG URL Standard's basic parser for absolute URLs without a base,
covering both special schemes (`https:`) and non-special ones (`r2:`).
Out of modelled scope: IDNA/IPv4/IPv6 normalisation of hosts (bracketed and
non-ASCII hosts are validated only structurally), `file:` drive letters, and
replacement-character decoding of invalid UTF-8 in form values (the model
fails with `none` where a browser would substitute U+FFFD).
-/

/-- Parsed URL record.  `host = none` means the URL has no authority;
`rawPath` is set instead of `pathSegs` for URLs with an opaque path. -/
structure URLRec where
  scheme : String
  username : String := ""
  password : String := ""
  host : Option String := none
  port : Option Nat := none
  pathSegs : List String := []
  rawPath : Option String := none
  query : Option String := none
  fragment : Option String := none
  deriving Repr, DecidableEq

/-- Special schemes per the URL Standard. -/
def isSpecialScheme (s : String) : Bool :=
  s = "http" || s = "https" || s = "ws" || s = "wss" || s = "ftp" || s = "file"

/-- Default port of a special scheme. -/
def defaultPort (s : String) : Option Nat :=
  if s = "http" || s = "ws" then some 80
  else if s = "https" || s = "wss" then some 443
  else if s = "ftp" then some 21
  else none

/-- C0-control percent-encode set. -/
def c0CtlSet (c : Char) : Bool :=
  c.toNat ≤ 0x1F || c.toNat > 0x7E

/-- Fragment percent-encode set: C0-controls plus space, `"`, `<`, `>`,
backtick. -/
def fragmentSet (c : Char) : Bool :=
  c0CtlSet c || c.toNat = 32 || c.toNat = 34 || c.toNat = 60 || c.toNat = 62 ||
  c.toNat = 96

/-- Query percent-encode set: C0-controls plus space, `"`, `#`, `<`, `>` (and
the apostrophe for special URLs). -/
def querySet (special : Bool) (c : Char) : Bool :=
  c0CtlSet c || c.toNat = 32 || c.toNat = 34 || c.toNat = 35 || c.toNat = 60 ||
  c.toNat = 62 || (special && c.toNat = 39)

/-- Path percent-encode set: the query set plus `?`, backtick, and braces. -/
def pathSet (c : Char) : Bool :=
  querySet false c || c.toNat = 63 || c.toNat = 96 || c.toNat = 0x7B ||
  c.toNat = 0x7D

/-- Userinfo percent-encode set: the path set plus
`/ : ; = @ [ \ ] ^ |`. -/
def userinfoSet (c : Char) : Bool :=
  pathSet c || c.toNat = 47 || c.toNat = 58 || c.toNat = 59 || c.toNat = 61 ||
  c.toNat = 64 || c.toNat = 91 || c.toNat = 92 || c.toNat = 93 ||
  c.toNat = 94 || c.toNat = 124

/-- Forbidden host code points: NUL, tab, LF, CR, space,
`# / : < > ? @ [ \ ] ^ |`. -/
def forbiddenHost (c : Char) : Bool :=
  c.toNat = 0 || c.toNat = 9 || c.toNat = 10 || c.toNat = 13 || c.toNat = 32 ||
  c.toNat = 35 || c.toNat = 47 || c.toNat = 58 || c.toNat = 60 ||
  c.toNat = 62 || c.toNat = 63 || c.toNat = 64 || c.toNat = 91 ||
  c.toNat = 92 || c.toNat = 93 || c.toNat = 94 || c.toNat = 124

/-- Forbidden domain code points (for special-scheme hosts): the forbidden
host code points plus C0 controls, `%` and DEL. -/
def forbiddenDomain (c : Char) : Bool :=
  forbiddenHost c || c.toNat ≤ 0x1F || c.toNat = 37 || c.toNat = 0x7F

/-- Input preprocessing of the URL parser: strip leading and trailing
C0 controls and spaces, and remove all tabs and newlines. -/
def urlPreprocess (l : List Char) : List Char :=
  (((l.dropWhile (fun c => c.toNat ≤ 0x20)).reverse.dropWhile
      (fun c => c.toNat ≤ 0x20)).reverse).filter
    (fun c => c.toNat ≠ 9 && c.toNat ≠ 10 && c.toNat ≠ 13)

/-- Valid non-initial scheme characters. -/
def schemeChar (c : Char) : Bool :=
  c.isAlphanum || c = '+' || c = '-' || c = '.'

/-- Read the scheme and the `:`; returns the lowercased scheme and the rest. -/
def parseScheme (l : List Char) : Option (String × List Char) :=
  match l with
  | [] => none
  | c :: _ =>
    if c.isAlpha then
      let buf := l.takeWhile schemeChar
      match l.drop buf.length with
      | ':' :: r => some (⟨buf.map Char.toLower⟩, r)
      | _ => none
    else none

/-- Split at the last `@`, returning (userinfo, host-port); `none` if no `@`. -/
def splitAtLastAt (l : List Char) : Option (List Char × List Char) :=
  if l.any (fun c => c = '@') then
    let r := l.reverse
    let hostR := r.takeWhile (fun c => c ≠ '@')
    some ((r.drop (hostR.length + 1)).reverse, hostR.reverse)
  else none

/-- Split at the first occurrence of `sep`; the second component is `none`
when `sep` does not occur. -/
def splitFirst (sep : Char) (l : List Char) : List Char × Option (List Char) :=
  let a := l.takeWhile (fun c => c ≠ sep)
  if a.length = l.length then (l, none) else (a, some (l.drop (a.length + 1)))

/-- Split an authority's host-port part at the port colon (respecting an
IPv6 bracket). -/
def splitHostPort (l : List Char) : List Char × Option (List Char) :=
  if l.head? = some '[' then
    let inside := l.takeWhile (fun c => c ≠ ']')
    let rest := l.drop (inside.length + 1)
    (inside ++ [']'], if rest.head? = some ':' then some (rest.drop 1) else none)
  else splitFirst ':' l

/-- Parse a host: bracketed hosts are kept verbatim (when the bracket is
closed), special-scheme hosts are lowercased ASCII domains, other hosts are
kept opaque with C0 controls percent-encoded. -/
def hostParse (special : Bool) (hostPart : List Char) (wellBracketed : Bool) :
    Option String :=
  if hostPart.head? = some '[' then
    if wellBracketed then some (⟨hostPart⟩ : String) else none
  else if hostPart = [] then (if special then none else some "")
  else if special then
    if hostPart.any forbiddenDomain then none
    else some (⟨hostPart.map Char.toLower⟩ : String)
  else
    if hostPart.any forbiddenHost then none
    else some (⟨encodeSet c0CtlSet hostPart⟩ : String)

/-- Parse an optional port string. -/
def portParse : Option (List Char) → Option (Option Nat)
  | none => some none
  | some [] => some none
  | some ds =>
    if ds.all (fun c => c.isDigit) then
      if (String.mk ds).toNat! < 65536 then some (some (String.mk ds).toNat!)
      else none
    else none

/-- Parse the host-port part of an authority. -/
def parseHostPort (scheme : String) (special : Bool) (l : List Char) :
    Option (Option String × Option Nat) :=
  match hostParse special (splitHostPort l).1
          ((l.takeWhile (fun c => c ≠ ']')).length < l.length),
        portParse (splitHostPort l).2 with
  | some host, some port =>
    some (host, if port = defaultPort scheme then none else port)
  | _, _ => none

/-- Map `\` to `/` in special URLs before splitting the path. -/
def pathDelimMap (special : Bool) (l : List Char) : List Char :=
  if special then l.map (fun c => if c.toNat = 92 then '/' else c) else l

/-- Single-dot path segment (".", "%2e" case-insensitively). -/
def isSingleDotSeg (s : List Char) : Bool :=
  s = ['.'] || (s.map Char.toLower) = "%2e".data

/-- Double-dot path segment ("..", ".%2e", "%2e.", "%2e%2e" case-insensitively). -/
def isDoubleDotSeg (s : List Char) : Bool :=
  let t := s.map Char.toLower
  t = "..".data || t = ".%2e".data || t = "%2e.".data || t = "%2e%2e".data

/-- Turn raw path segments into the URL's path list: double-dot pops, single-dot
is dropped, other segments are percent-encoded with the path set; a trailing
dot segment leaves a trailing empty segment. -/
def procSegs (segs : List (List Char)) : List String :=
  let core := segs.foldl
    (fun acc s =>
      if isDoubleDotSeg s then acc.dropLast
      else if isSingleDotSeg s then acc
      else acc ++ [(⟨encodeSet pathSet s⟩ : String)]) []
  match segs.getLast? with
  | some s => if isSingleDotSeg s || isDoubleDotSeg s then core ++ [""] else core
  | none => core

/-- Parse the path / query / fragment that follow the authority (`rest` starts
with the path, `?` or `#`, or is empty). -/
def parsePathQF (special : Bool) (rest : List Char) :
    List String × Option String × Option String :=
  let pathPart := rest.takeWhile (fun c => c ≠ '?' && c ≠ '#')
  let afterPath := rest.drop pathPart.length
  let (queryPart, fragPart) :=
    match afterPath with
    | '?' :: r =>
      let q := r.takeWhile (fun c => c ≠ '#')
      (some q, match r.drop q.length with
               | '#' :: f => some f
               | _ => none)
    | '#' :: f => (none, some f)
    | _ => (none, none)
  let path :=
    match pathPart with
    | [] => if special then [""] else []
    | l => procSegs (((pathDelimMap special l).drop 1).splitOn '/')
  (path,
   queryPart.map (fun q => (⟨encodeSet (querySet special) q⟩ : String)),
   fragPart.map (fun f => (⟨encodeSet fragmentSet f⟩ : String)))

/-- Continue an authority parse with split userinfo: parse the host-port and
the path/query/fragment. -/
def parseAuthRest (scheme : String) (special : Bool)
    (user pass hostPort rest : List Char) : Option URLRec :=
  match parseHostPort scheme special hostPort with
  | none => none
  | some (host, port) =>
    some { scheme := scheme, username := ⟨user⟩, password := ⟨pass⟩,
           host := some (host.getD ""), port := port,
           pathSegs := (parsePathQF special rest).1,
           query := (parsePathQF special rest).2.1,
           fragment := (parsePathQF special rest).2.2 }

/-- Parse an authority followed by path/query/fragment. -/
def parseWithAuthority (scheme : String) (special : Bool) (r : List Char) :
    Option URLRec :=
  let authStr := r.takeWhile
    (fun c => c ≠ '/' && c ≠ '?' && c ≠ '#' && !(special && c.toNat = 92))
  let rest := r.drop authStr.length
  match splitAtLastAt authStr with
  | some (ui, hp) =>
    if hp = [] then none
    else
      parseAuthRest scheme special
        (encodeSet userinfoSet (splitFirst ':' ui).1)
        (encodeSet userinfoSet ((splitFirst ':' ui).2.getD [])) hp rest
  | none => parseAuthRest scheme special [] [] authStr rest

/-- Model of `new URL(input)` (no base); `none` models a thrown `TypeError`. -/
def urlParse (input : List Char) : Option URLRec :=
  match parseScheme (urlPreprocess input) with
  | none => none
  | some (scheme, rest) =>
    if isSpecialScheme scheme then
      parseWithAuthority scheme true
        (rest.dropWhile (fun c => c = '/' || c.toNat = 92))
    else
      match rest with
      | '/' :: '/' :: r => parseWithAuthority scheme false r
      | '/' :: r =>
        some { scheme := scheme, host := none,
               pathSegs := (parsePathQF false ('/' :: r)).1,
               query := (parsePathQF false ('/' :: r)).2.1,
               fragment := (parsePathQF false ('/' :: r)).2.2 }
      | r =>
        some { scheme := scheme, host := none,
               rawPath := some
                 (⟨encodeSet c0CtlSet
                   (r.takeWhile (fun c => c ≠ '?' && c ≠ '#'))⟩ : String),
               query := (parsePathQF false
                 (r.drop (r.takeWhile (fun c => c ≠ '?' && c ≠ '#')).length)).2.1,
               fragment := (parsePathQF false
                 (r.drop (r.takeWhile (fun c => c ≠ '?' && c ≠ '#')).length)).2.2 }

/-- Serialised userinfo ("user:pass@", "user@", or empty). -/
def userinfoStr (u : URLRec) : String :=
  if u.username ≠ "" ∨ u.password ≠ "" then
    u.username ++ (if u.password ≠ "" then ":" ++ u.password else "") ++ "@"
  else ""

/-- Getter `url.hostname`. -/
def hostnameStr (u : URLRec) : String :=
  u.host.getD ""

/-- Getter `url.host` (hostname plus non-default port). -/
def hostStr (u : URLRec) : String :=
  hostnameStr u ++ (match u.port with
                    | some p => ":" ++ toString p
                    | none => "")

/-- Getter `url.pathname`. -/
def pathnameStr (u : URLRec) : String :=
  match u.rawPath with
  | some p => p
  | none => String.join (u.pathSegs.map (fun s => "/" ++ s))

/-- Getter `url.search` (`""` for an absent or empty query, else `?query`). -/
def searchStr (u : URLRec) : String :=
  match u.query with
  | none => ""
  | some q => if q = "" then "" else "?" ++ q

/-- Model of `url.toString()` / `url.href`. -/
def urlSerialize (u : URLRec) : String :=
  u.scheme ++ ":" ++
  (match u.host with
   | some h => "//" ++ userinfoStr u ++ h ++
       (match u.port with
        | some p => ":" ++ toString p
        | none => "")
   | none =>
     if u.rawPath = none ∧ u.pathSegs.length > 1 ∧ u.pathSegs.head? = some "" then
       "/."
     else "") ++
  pathnameStr u ++
  (match u.query with
   | some q => "?" ++ q
   | none => "") ++
  (match u.fragment with
   | some f => "#" ++ f
   | none => "")

/-- Predicate "cannot have a username/password/port" of the URL Standard. -/
def cannotHaveCreds (u : URLRec) : Bool :=
  u.host = none || u.host = some "" || u.scheme = "file"

/-- Model of the `url.username` setter. -/
def setUsername (u : URLRec) (s : String) : URLRec :=
  if cannotHaveCreds u then u
  else { u with username := ⟨encodeSet userinfoSet s.data⟩ }

/-- Model of the `url.password` setter. -/
def setPassword (u : URLRec) (s : String) : URLRec :=
  if cannotHaveCreds u then u
  else { u with password := ⟨encodeSet userinfoSet s.data⟩ }

/-!
AWS Signature V4 signer (`signRequest` and its helpers, r2.ts lines 79-200).

The SHA-256 and HMAC-SHA-256 primitives come from `crypto.subtle`; they are
modelled as an explicit parameter (a structure of pure byte functions), since
their definitions are outside the repository.  The clock (`new Date()` at
line 138) is modelled as an explicit ISO-8601 string parameter capturing the
value `now.toISOString()` would produce, so that properties about a fixed
captured clock value can be stated.
-/

/-- Abstract cryptographic primitives: a 256-bit digest and an HMAC over it,
both as pure functions on byte lists. -/
structure CryptoPrim where
  digest : List Nat → List Nat
  mac : List Nat → List Nat → List Nat

/-- Model of `hmacSha256(key, message)`: a string key is UTF-8 encoded, the
message always is. -/
def hmacSha256 (cp : CryptoPrim) (key : List Nat) (message : String) : List Nat :=
  cp.mac key (utf8Str message)

/-- Model of `sha256(message)`: hex digest of the UTF-8 bytes (or raw bytes). -/
def sha256Hex (cp : CryptoPrim) (data : List Nat) : String :=
  hexOfBytes (cp.digest data)

/-- Model of `getSignatureKey`: the four chained HMACs deriving the signing key. -/
def getSignatureKey (cp : CryptoPrim) (secretKey dateStamp region service : String) :
    List Nat :=
  let kDate := hmacSha256 cp (utf8Str ("AWS4" ++ secretKey)) dateStamp
  let kRegion := hmacSha256 cp kDate region
  let kService := hmacSha256 cp kRegion service
  hmacSha256 cp kService "aws4_request"

/-- Request body as passed to the signer: a string or an `ArrayBuffer`. -/
inductive JSBody where
  | str (s : String)
  | bytes (bs : List Nat)
  deriving Repr, DecidableEq

/-- Byte content of a body (`TextEncoder` for strings). -/
def JSBody.toBytes : JSBody → List Nat
  | .str s => utf8Str s
  | .bytes bs => bs

/-- Result of signing: the original URL and the headers to send. -/
structure SignedRequest where
  url : String
  headers : List (String × String)
  deriving Repr, DecidableEq

/-- Model of `now.toISOString().replace(/[:-]|\.\d{3}/g, "")`: drop every `:`
and `-`, and drop each `.` followed by exactly three digits. -/
def isoCompact : List Char → List Char
  | [] => []
  | '.' :: a :: b :: c :: rest =>
    if a.isDigit && b.isDigit && c.isDigit then isoCompact rest
    else '.' :: isoCompact (a :: b :: c :: rest)
  | c :: rest =>
    if c = ':' || c = '-' then isoCompact rest else c :: isoCompact rest

/-- Model of `signRequest` (r2.ts lines 126-200).  `nowIso` is the captured
clock value (`now.toISOString()`); `none` models the `new URL(url)` throw on
an invalid URL. -/
def signRequest (cp : CryptoPrim) (nowIso : String) (method url : String)
    (headers : List (String × String)) (body : JSBody)
    (accessKeyId secretAccessKey region : String) : Option SignedRequest := do
  let parsedUrl ← urlParse url.data
  let service := "s3"
  let amzDate : String := ⟨isoCompact nowIso.data⟩
  let dateStamp : String := ⟨amzDate.data.take 8⟩
  let payloadHash := sha256Hex cp body.toBytes
  let normalizedHeaders := headers.foldl
    (fun m kv => recordSet m (lowerStr kv.1) kv.2) []
  let signedHeaders :=
    recordSet (recordSet (recordSet normalizedHeaders
      "host" (hostStr parsedUrl))
      "x-amz-date" amzDate)
      "x-amz-content-sha256" payloadHash
  let sortedHeaderKeys := sortStrings (signedHeaders.map (fun kv => kv.1))
  let canonicalHeaders := joinNL (sortedHeaderKeys.map
    (fun k => k ++ ":" ++ jsTrim ((recordGet signedHeaders k).getD "")))
  let signedHeadersStr := joinSemi sortedHeaderKeys
  let canonicalUri := pathnameStr parsedUrl
  let canonicalQuerystring : String := ⟨(searchStr parsedUrl).data.drop 1⟩
  let canonicalRequest := joinNL
    [method, canonicalUri, canonicalQuerystring, canonicalHeaders ++ "\n",
     signedHeadersStr, payloadHash]
  let credentialScope :=
    dateStamp ++ "/" ++ region ++ "/" ++ service ++ "/aws4_request"
  let stringToSign := joinNL
    ["AWS4-HMAC-SHA256", amzDate, credentialScope,
     sha256Hex cp (utf8Str canonicalRequest)]
  let signingKey := getSignatureKey cp secretAccessKey dateStamp region service
  let signature := hexOfBytes (cp.mac signingKey (utf8Str stringToSign))
  let authorizationHeader :=
    "AWS4-HMAC-SHA256 Credential=" ++ accessKeyId ++ "/" ++ credentialScope ++
    ", SignedHeaders=" ++ signedHeadersStr ++ ", Signature=" ++ signature
  return { url := url,
           headers := recordSet signedHeaders "Authorization" authorizationHeader }

/-!
R2 client data model and operations (r2.ts lines 28-73 and 266-648).

Each operation builds a signed request and hands it to the HTTP transport;
the transport is abstracted by passing the `Response` it answers with as an
explicit argument, so an operation is a pure function of its inputs and the
observed response.  Response header names are stored lowercased, as the
`@effect/platform` HTTP client normalises them.  Response bodies are modelled
as the decoded text (`response.text` / `response.arrayBuffer` are conflated;
`TextDecoder` is then the identity), which is faithful for every property
stated below.
-/

/-- Configuration record `R2Config`. -/
structure R2Config where
  accountId : String
  accessKeyId : String
  secretAccessKey : String
  bucket : String
  publicUrl : Option String := none
  deriving Repr, DecidableEq

/-- Value of a JavaScript `Date`: either `new Date()` at the moment of the
call, or `new Date(s)` parsed from a header string. -/
inductive DateVal where
  | now
  | fromStr (s : String)
  deriving Repr, DecidableEq

/-- The `httpMetadata` sub-record of `R2Object`. -/
structure HttpMeta where
  contentType : Option String := none
  contentLanguage : Option String := none
  contentDisposition : Option String := none
  contentEncoding : Option String := none
  cacheControl : Option String := none
  deriving Repr, DecidableEq

/-- Stored-object descriptor `R2Object`. -/
structure R2Object where
  key : String
  size : Int
  etag : String
  lastModified : DateVal
  url : Option String := none
  httpMetadata : Option HttpMeta := none
  customMetadata : Option (List (String × String)) := none
  deriving Repr, DecidableEq

/-- Error record `R2Error`. -/
structure R2Error where
  operation : String
  message : String
  status : Option Nat := none
  deriving Repr, DecidableEq

/-- Typed failure of a key-addressed operation: an `R2Error` or an
`R2NotFoundError` (which carries bucket and key). -/
inductive R2Fail where
  | err (e : R2Error)
  | notFound (bucket key : String)
  deriving Repr, DecidableEq

/-- Outcome of an Effect whose body may also throw: a typed success, a typed
error, or an untyped defect (a thrown exception that is not in the error
channel). -/
inductive Outcome (ε α : Type) where
  | ok (a : α)
  | fail (e : ε)
  | die (msg : String)
  deriving Repr, DecidableEq

/-- Put options `R2PutOptions`. -/
structure R2PutOptions where
  contentType : Option String := none
  contentDisposition : Option String := none
  cacheControl : Option String := none
  customMetadata : Option (List (String × String)) := none
  deriving Repr, DecidableEq

/-- HTTP response as observed by the client: status, lowercased headers, body
text. -/
structure Response where
  status : Nat
  headers : List (String × String) := []
  body : String := ""
  deriving Repr, DecidableEq

/-- Base bucket URL (r2.ts line 272). -/
def baseUrl (cfg : R2Config) : String :=
  "https://" ++ cfg.accountId ++ ".r2.cloudflarestorage.com/" ++ cfg.bucket

/-- Key encoding (r2.ts line 276): percent-encode each `/`-separated segment. -/
def encodeKey (key : String) : String :=
  String.intercalate "/" ((key.data.splitOn '/').map
    (fun seg => encodeURIComponent ⟨seg⟩))

/-- Model of `getPublicUrl` (r2.ts lines 278-284); note the falsy check drops
an empty configured public URL. -/
def getPublicUrl (cfg : R2Config) (key : String) : Option String :=
  match cfg.publicUrl with
  | none => none
  | some p =>
    if p = "" then none
    else some ((if p.endsWith "/" then (⟨p.data.dropLast⟩ : String) else p)
      ++ "/" ++ key)

/-- Model of `parseInt(s, 10)`; `none` models `NaN`. -/
def jsParseInt (s : String) : Option Int :=
  let t := s.data.dropWhile jsWs
  let (sign, t₁) : Int × List Char :=
    match t with
    | '-' :: r => (-1, r)
    | '+' :: r => (1, r)
    | _ => (1, t)
  let ds := t₁.takeWhile Char.isDigit
  if ds.isEmpty then none else some (sign * ((String.mk ds).toNat! : Int))

/-- Model of `get` (r2.ts lines 308-345): 404 is a not-found error, other
non-2xx is an `R2Error` carrying the response body, success returns the body. -/
def getM (cfg : R2Config) (key : String) (resp : Response) : Except R2Fail String :=
  if resp.status = 404 then
    .error (.notFound cfg.bucket key)
  else if resp.status < 200 ∨ 300 ≤ resp.status then
    .error (.err { operation := "get", message := resp.body,
                   status := some resp.status })
  else
    .ok resp.body

/-- Model of `getText` (r2.ts lines 347-351). -/
def getTextM (cfg : R2Config) (key : String) (resp : Response) :
    Except R2Fail String :=
  getM cfg key resp

/-- Header record built by `put` (r2.ts lines 368-381). -/
def putHeaders (options : R2PutOptions) : List (String × String) :=
  let h := [("content-type", options.contentType.getD "application/octet-stream")]
  let h := match options.cacheControl with
           | some cc => recordSet h "cache-control" cc
           | none => h
  let h := match options.contentDisposition with
           | some cd => recordSet h "content-disposition" cd
           | none => h
  match options.customMetadata with
  | some md => md.foldl (fun m kv => recordSet m ("x-amz-meta-" ++ kv.1) kv.2) h
  | none => h

/-- URL of a key-addressed request. -/
def keyUrl (cfg : R2Config) (key : String) : String :=
  baseUrl cfg ++ "/" ++ encodeKey key

/-- Signed request produced by `put` before execution (r2.ts lines 383-384). -/
def putSignedRequest (cp : CryptoPrim) (nowIso : String) (cfg : R2Config)
    (key : String) (body : JSBody) (options : R2PutOptions) :
    Option SignedRequest :=
  signRequest cp nowIso "PUT" (keyUrl cfg key) (putHeaders options) body
    cfg.accessKeyId cfg.secretAccessKey "auto"

/-- Headers actually sent by `put` (r2.ts lines 386-391): the signed headers,
with `content-type` set (again) by `bodyUint8Array`. -/
def putSentHeaders (cp : CryptoPrim) (nowIso : String) (cfg : R2Config)
    (key : String) (body : JSBody) (options : R2PutOptions) :
    Option (List (String × String)) :=
  (putSignedRequest cp nowIso cfg key body options).map
    (fun sr => recordSet sr.headers "content-type"
      (options.contentType.getD "application/octet-stream"))

/-- Model of `put`'s handling of the transport response (r2.ts lines 399-425). -/
def putM (cfg : R2Config) (key : String) (body : JSBody)
    (options : R2PutOptions) (resp : Response) : Except R2Error R2Object :=
  if resp.status < 200 ∨ 300 ≤ resp.status then
    .error { operation := "put", message := resp.body, status := some resp.status }
  else
    .ok { key := key,
          size := (body.toBytes.length : Int),
          etag := (recordGet resp.headers "etag").getD "",
          lastModified := .now,
          url := getPublicUrl cfg key,
          httpMetadata := some { contentType := options.contentType,
                                 cacheControl := options.cacheControl,
                                 contentDisposition := options.contentDisposition },
          customMetadata := options.customMetadata }

/-- Model of `delete` (r2.ts lines 434-466): any 2xx and 404 succeed, every
other status is an `R2Error` carrying it. -/
def deleteM (key : String) (resp : Response) : Except R2Error Unit :=
  if resp.status < 200 ∨ (300 ≤ resp.status ∧ resp.status ≠ 404) then
    .error { operation := "delete", message := resp.body,
             status := some resp.status }
  else
    .ok ()

/-- Model of `head` (r2.ts lines 471-519).  `parseInt` returning `NaN` for a
non-numeric `content-length` is conflated with `0` (no stated property
observes it). -/
def headM (cfg : R2Config) (key : String) (resp : Response) :
    Except R2Fail R2Object :=
  if resp.status = 404 then
    .error (.notFound cfg.bucket key)
  else if resp.status < 200 ∨ 300 ≤ resp.status then
    .error (.err { operation := "head", message := "HEAD failed",
                   status := some resp.status })
  else
    let contentLength := recordGet resp.headers "content-length"
    let etag := recordGet resp.headers "etag"
    let lastModified := recordGet resp.headers "last-modified"
    let contentType := recordGet resp.headers "content-type"
    .ok { key := key,
          size := match contentLength with
                  | none => 0
                  | some s => if s = "" then 0 else (jsParseInt s).getD 0,
          etag := etag.getD "",
          lastModified := match lastModified with
                          | none => .now
                          | some s => if s = "" then .now else .fromStr s,
          url := getPublicUrl cfg key,
          httpMetadata := some { contentType := contentType },
          customMetadata := none }

/-- Model of `exists` (r2.ts lines 630-634): `head` with `R2NotFoundError`
caught and turned into `false`. -/
def existsM (cfg : R2Config) (key : String) (resp : Response) :
    Except R2Error Bool :=
  match headM cfg key resp with
  | .ok _ => .ok true
  | .error (.notFound _ _) => .ok false
  | .error (.err e) => .error e

/-- Options `copy` passes to the destination `put` (r2.ts lines 640-643). -/
def copyOpts (sourceMeta : R2Object) : R2PutOptions :=
  { contentType := sourceMeta.httpMetadata.bind (fun m => m.contentType),
    customMetadata := sourceMeta.customMetadata }

/-- Model of `copy` (r2.ts lines 636-644): `get` then `head` on the source,
then `put` on the destination with the options of `copyOpts`. -/
def copyM (cfg : R2Config) (sourceKey destKey : String)
    (getResp headResp putResp : Response) : Except R2Fail R2Object :=
  match getM cfg sourceKey getResp with
  | .error e => .error e
  | .ok data =>
    match headM cfg sourceKey headResp with
    | .error e => .error e
    | .ok sourceMeta =>
      match putM cfg destKey (.bytes (utf8Str data)) (copyOpts sourceMeta)
          putResp with
      | .ok o => .ok o
      | .error e => .error (.err e)

/-!
JSON recognizer.

`getJson` calls the external builtin `JSON.parse(text)`; only its
success/failure matters to any stated property, so it is modelled as a
recognizer for the JSON grammar (ECMA-404): `jsonValid text` holds exactly
when `JSON.parse(text)` succeeds.
-/

/-- JSON whitespace. -/
def jsonWsChar (c : Char) : Bool :=
  c = ' ' || c.toNat = 9 || c.toNat = 10 || c.toNat = 13

/-- Consume the rest of a JSON string literal (after the opening quote),
returning what follows the closing quote. -/
def jsonStrRest : List Char → Option (List Char)
  | [] => none
  | c :: rest =>
    if c.toNat = 34 then some rest
    else if c.toNat = 92 then
      match rest with
      | [] => none
      | e :: rest₂ =>
        if e.toNat = 34 ∨ e.toNat = 92 ∨ e = '/' ∨ e = 'b' ∨ e = 'f' ∨
           e = 'n' ∨ e = 'r' ∨ e = 't' then jsonStrRest rest₂
        else if e = 'u' then
          match rest₂ with
          | a :: b :: cₕ :: d :: rest₃ =>
            if (hexVal a).isSome && (hexVal b).isSome && (hexVal cₕ).isSome &&
               (hexVal d).isSome then jsonStrRest rest₃
            else none
          | _ => none
        else none
    else if c.toNat < 0x20 then none
    else jsonStrRest rest

/-- Consume the fraction and exponent parts of a JSON number. -/
def jsonFracExp (l : List Char) : Option (List Char) := do
  let l₁ ←
    match l with
    | '.' :: r =>
      let ds := r.takeWhile Char.isDigit
      if ds.isEmpty then none else some (r.drop ds.length)
    | _ => some l
  match l₁ with
  | 'e' :: r | 'E' :: r =>
    let r₁ := match r with
              | '+' :: r₂ => r₂
              | '-' :: r₂ => r₂
              | _ => r
    let ds := r₁.takeWhile Char.isDigit
    if ds.isEmpty then none else some (r₁.drop ds.length)
  | _ => some l₁

/-- Consume a JSON number. -/
def jsonNum (l : List Char) : Option (List Char) :=
  let l₁ := match l with
            | '-' :: r => r
            | _ => l
  match l₁ with
  | '0' :: r => jsonFracExp r
  | c :: r =>
    if c.isDigit then jsonFracExp (r.dropWhile Char.isDigit)
    else none
  | [] => none

mutual

/-- Consume one JSON value (leading whitespace allowed), fuelled. -/
def jsonValF : Nat → List Char → Option (List Char)
  | 0, _ => none
  | f + 1, l =>
    match l.dropWhile jsonWsChar with
    | [] => none
    | c :: rest =>
      if c.toNat = 34 then jsonStrRest rest
      else if c = 't' then
        if rest.take 3 = ['r', 'u', 'e'] then some (rest.drop 3) else none
      else if c = 'f' then
        if rest.take 4 = ['a', 'l', 's', 'e'] then some (rest.drop 4) else none
      else if c = 'n' then
        if rest.take 3 = ['u', 'l', 'l'] then some (rest.drop 3) else none
      else if c = '-' ∨ c.isDigit then jsonNum (c :: rest)
      else if c.toNat = 91 then
        match rest.dropWhile jsonWsChar with
        | ']' :: r => some r
        | _ => jsonArrF f rest
      else if c.toNat = 0x7B then
        match rest.dropWhile jsonWsChar with
        | r₀ :: r => if r₀.toNat = 0x7D then some r else jsonObjF f rest
        | [] => none
      else none

/-- Consume the members of a non-empty JSON array (after `[`), fuelled. -/
def jsonArrF : Nat → List Char → Option (List Char)
  | 0, _ => none
  | f + 1, l => do
    let r ← jsonValF f l
    match r.dropWhile jsonWsChar with
    | ']' :: r₂ => some r₂
    | ',' :: r₂ => jsonArrF f r₂
    | _ => none

/-- Consume the members of a non-empty JSON object (after the opening brace),
fuelled. -/
def jsonObjF : Nat → List Char → Option (List Char)
  | 0, _ => none
  | f + 1, l => do
    match l.dropWhile jsonWsChar with
    | c :: rest =>
      if c.toNat = 34 then do
        let afterName ← jsonStrRest rest
        match afterName.dropWhile jsonWsChar with
        | ':' :: r => do
          let afterVal ← jsonValF f r
          match afterVal.dropWhile jsonWsChar with
          | ',' :: r₂ => jsonObjF f r₂
          | r₀ :: r₂ => if r₀.toNat = 0x7D then some r₂ else none
          | [] => none
        | _ => none
      else none
    | [] => none

end

/-- Success predicate of `JSON.parse`. -/
def jsonValid (s : String) : Bool :=
  match jsonValF (2 * s.data.length + 4) s.data with
  | some r => (r.dropWhile jsonWsChar).isEmpty
  | none => false

/-- Model of `getJson` (r2.ts lines 353-357).  The parsed value itself is not
observed by any stated property; what matters is the outcome channel:
`JSON.parse` throwing inside `Effect.gen` produces an untyped defect (`die`),
not a typed error. -/
def getJsonM (cfg : R2Config) (key : String) (resp : Response) :
    Outcome R2Fail Unit :=
  match getTextM cfg key resp with
  | .error e => .fail e
  | .ok text =>
    if jsonValid text then .ok () else .die "SyntaxError thrown by JSON.parse"

/-!
XML scanning used by `list` (r2.ts lines 560-613) and pagination
(`listAll`, lines 616-628).
-/

/-- One attempted match of the regex `<tag>([^<]*)</tag>` at the head of the
input: the literal open tag, then a maximal run of non-`<` characters, then
the literal close tag. -/
def tagMatchAt (openT closeT l : List Char) : Option (List Char × List Char) :=
  if openT.isPrefixOf l then
    let afterOpen := l.drop openT.length
    let v := afterOpen.takeWhile (fun c => c ≠ '<')
    let afterVal := afterOpen.drop v.length
    if closeT.isPrefixOf afterVal then some (v, afterVal.drop closeT.length)
    else none
  else none

/-- Fuelled scan of every match of `<tag>([^<]*)</tag>` (the `g`-flag regex
loop of `getAllTags`): on a match, continue after it; otherwise advance one
character. -/
def scanTagsF (openT closeT : List Char) : Nat → List Char → List (List Char)
  | 0, _ => []
  | _ + 1, [] => []
  | f + 1, l@(_ :: rest) =>
    match tagMatchAt openT closeT l with
    | some (v, after) => v :: scanTagsF openT closeT f after
    | none => scanTagsF openT closeT f rest

/-- Model of `getAllTags(tag, text)` (r2.ts lines 565-573): all matched
values, with empty captures dropped by the `if (match[1])` truthiness check. -/
def getAllTags (tag : String) (text : List Char) : List (List Char) :=
  (scanTagsF ("<" ++ tag ++ ">").data ("</" ++ tag ++ ">").data
    text.length text).filter (fun v => !v.isEmpty)

/-- Model of `getTag(tag, text)` (r2.ts lines 560-563): the first matched
value (possibly empty), `none` when the regex does not match. -/
def getTagM (tag : String) (text : List Char) : Option (List Char) :=
  (scanTagsF ("<" ++ tag ++ ">").data ("</" ++ tag ++ ">").data
    text.length text).head?

/-- Model of the `delimitedPrefixes` computation of `list` (r2.ts lines
602-606): every `<Prefix>` tag value in the document, kept when the document
contains the exact substring `<CommonPrefixes><Prefix>` ++ value ++
`</Prefix></CommonPrefixes>`. -/
def delimitedPfxs (xml : List Char) : List (List Char) :=
  (getAllTags "Prefix" xml).filter
    (fun p => containsSeq xml
      ("<CommonPrefixes><Prefix>".data ++ p ++ "</Prefix></CommonPrefixes>".data))

/-- Modelled from the spec: the values of `<Prefix>` tags that appear nested
inside `<CommonPrefixes>` wrappers, collected structurally (per
`<CommonPrefixes>...</CommonPrefixes>` block, shortest-match as for the
`<Contents>` blocks). -/
def specNestedPfxValues (xml : List Char) : List (List Char) :=
  (blockScanF xml.length xml).flatMap
    (fun block => scanTagsF "<Prefix>".data "</Prefix>".data block.length block)
where
  /-- Fuelled scan of `<CommonPrefixes>([\s\S]*?)</CommonPrefixes>` blocks. -/
  blockScanF : Nat → List Char → List (List Char)
    | 0, _ => []
    | _ + 1, [] => []
    | f + 1, l@(_ :: rest) =>
      if "<CommonPrefixes>".data.isPrefixOf l then
        let inner := l.drop 16
        let body := shortestBody f inner
        match body with
        | some (b, after) => b :: blockScanF f after
        | none => blockScanF f rest
      else blockScanF f rest
  /-- Shortest body up to the first `</CommonPrefixes>`. -/
  shortestBody : Nat → List Char → Option (List Char × List Char)
    | 0, _ => none
    | _ + 1, [] => none
    | f + 1, l@(c :: rest) =>
      if "</CommonPrefixes>".data.isPrefixOf l then some ([], l.drop 17)
      else
        match shortestBody f rest with
        | some (b, after) => some (c :: b, after)
        | none => none

/-- List-page result as consumed by `listAll`: the page's objects, the
truncation flag and the continuation cursor `list` extracted from the XML. -/
structure ListPage where
  objects : List R2Object
  truncated : Bool
  cursor : Option String := none
  deriving Repr, DecidableEq

/-- Query parameters `listAll`'s calls to `list` put on the request (r2.ts
lines 523-528): each option is included only when truthy. -/
structure ListReq where
  pfx : Option String := none
  cursor : Option String := none
  limit : Option Nat := none
  deriving Repr, DecidableEq

/-- Truthiness filter for an optional string parameter. -/
def truthy : Option String → Option String
  | some s => if s = "" then none else some s
  | none => none

/-- Request `list` issues for given options (prefix, cursor, limit 1000). -/
def listReqOf (pfx : Option String) (cursor : Option String) : ListReq :=
  { pfx := truthy pfx, cursor := truthy cursor, limit := some 1000 }

/-- Model of the `do`/`while` pagination loop of `listAll` (r2.ts lines
616-628), with the transport abstracted as the queue of pages successive
`list` calls return.  Returns the accumulated objects, the request log, and
whether the loop exited by seeing a non-continuing page (rather than by the
page queue running dry, which cannot happen for a well-formed finite chain). -/
def listAllGo (pfx : Option String) :
    List ListPage → Option String → List R2Object × List ListReq × Bool
  | [], _ => ([], [], false)
  | page :: rest, cursor =>
    let req := listReqOf pfx cursor
    let next := if page.truncated then page.cursor else none
    match truthy next with
    | none => (page.objects, [req], true)
    | some c =>
      let (os, reqs, done) := listAllGo pfx rest (some c)
      (page.objects ++ os, req :: reqs, done)

/-- Model of `listAll(prefix)` over a finite page chain. -/
def listAllM (pfx : Option String) (pages : List ListPage) :
    List R2Object × List ListReq × Bool :=
  listAllGo pfx pages none

/-!
URLSearchParams (application/x-www-form-urlencoded), used by `toR2Url`
(`url.searchParams.set`) and `parseR2Url` (`parsed.searchParams.get`).
-/

/-- Characters the form-urlencoded serialiser leaves intact. -/
def formSafe (c : Char) : Bool :=
  c.isAlphanum || c = '*' || c = '-' || c = '.' || c = '_'

/-- Form-urlencoded serialisation of one string: safe characters intact,
space as `+`, everything else percent-encoded per UTF-8 byte. -/
def formEncode (s : String) : String :=
  ⟨s.data.flatMap (fun c =>
    if formSafe c then [c]
    else if c = ' ' then ['+']
    else pctEncodeChar c)⟩

/-- Byte sequence a form-urlencoded token decodes to: `+` is a space, `%XY`
is a byte (a malformed escape passes the `%` through literally), other
characters contribute their UTF-8 bytes. -/
def formDecodeBytes : List Char → List Nat
  | [] => []
  | c :: r =>
    if c.toNat = 43 then 32 :: formDecodeBytes r
    else if c.toNat = 37 then
      match r with
      | h₁ :: h₂ :: r₂ =>
        match hexPair h₁ h₂ with
        | some b => b :: formDecodeBytes r₂
        | none => utf8Bytes c ++ formDecodeBytes (h₁ :: h₂ :: r₂)
      | [h₁] => utf8Bytes c ++ formDecodeBytes [h₁]
      | [] => utf8Bytes c
    else utf8Bytes c ++ formDecodeBytes r
  termination_by l => l.length
  decreasing_by all_goals simp +arith [List.length_cons]

/-- Form-urlencoded decoding of one token.  Scope: on invalid UTF-8 the model
yields `none` where a browser substitutes replacement characters. -/
def formDecode (l : List Char) : Option String :=
  (utf8DecodeF ((formDecodeBytes l).length + 1) (formDecodeBytes l)).map
    (fun cs => ⟨cs⟩)

/-- Decoded name-value pairs of a query string (split on `&`, empty tokens
skipped, each split at the first `=`); pairs whose name or value fails to
decode are dropped (unreachable for the strings this development evaluates). -/
def searchPairs (u : URLRec) : List (String × String) :=
  (((u.query.getD "").data.splitOn '&').filterMap (fun tok =>
    if tok.isEmpty then none
    else
      let (n, v) := splitFirst '=' tok
      match formDecode n, formDecode (v.getD []) with
      | some dn, some dv => some (dn, dv)
      | _, _ => none))

/-- Model of `searchParams.get(name)`. -/
def searchParamsGet (u : URLRec) (name : String) : Option String :=
  ((searchPairs u).find? (fun p => p.1 = name)).map (fun p => p.2)

/-- Set semantics on a pair list: replace the first pair with the given name
and drop the rest, else append. -/
def setPair : List (String × String) → String → String → List (String × String)
  | [], n, v => [(n, v)]
  | (k, w) :: rest, n, v =>
    if k = n then (n, v) :: rest.filter (fun p => p.1 ≠ n)
    else (k, w) :: setPair rest n v

/-- Form-urlencoded serialisation of a pair list. -/
def formSerialize (ps : List (String × String)) : String :=
  String.intercalate "&" (ps.map (fun p => formEncode p.1 ++ "=" ++ formEncode p.2))

/-- Model of `url.searchParams.set(name, value)` (which re-serialises the
URL's query). -/
def searchParamsSet (u : URLRec) (name value : String) : URLRec :=
  { u with query := some (formSerialize (setPair (searchPairs u) name value)) }

/-!
Connection-string functions `parseR2Url` (r2.ts lines 668-687) and `toR2Url`
(lines 693-701).
-/

/-- Model of `parseR2Url`.  `Except.error` models the thrown exceptions: an
invalid URL (`TypeError` from `new URL`), a malformed percent escape
(`URIError` from `decodeURIComponent`), a wrong scheme, or a missing field. -/
def parseR2Url (url : String) : Except String R2Config :=
  match urlParse url.data with
  | none => .error "TypeError: invalid URL"
  | some parsed =>
    if parsed.scheme ++ ":" ≠ "r2:" then
      .error "Invalid R2 URL: must start with r2://"
    else
      match decodeURIComponentM parsed.username,
            decodeURIComponentM parsed.password with
      | some accessKeyId, some secretAccessKey =>
        let accountId := hostnameStr parsed
        let bucket : String := ⟨(pathnameStr parsed).data.drop 1⟩
        let publicUrl := searchParamsGet parsed "publicUrl"
        if accessKeyId = "" ∨ secretAccessKey = "" ∨ accountId = "" ∨ bucket = ""
        then .error "Invalid R2 URL format. Expected: r2://ACCESS_KEY_ID:SECRET_ACCESS_KEY@ACCOUNT_ID/BUCKET"
        else .ok { accountId := accountId, accessKeyId := accessKeyId,
                   secretAccessKey := secretAccessKey, bucket := bucket,
                   publicUrl := publicUrl }
      | _, _ => .error "URIError: malformed URI sequence"

/-- Model of `toR2Url`; `none` models `new URL` throwing on the constructed
string. -/
def toR2Url (config : R2Config) : Option String := do
  let u ← urlParse ("r2://" ++ config.accountId ++ "/" ++ config.bucket).data
  let u := setUsername u (encodeURIComponent config.accessKeyId)
  let u := setPassword u (encodeURIComponent config.secretAccessKey)
  let u :=
    match config.publicUrl with
    | some pub => if pub ≠ "" then searchParamsSet u "publicUrl" pub else u
    | none => u
  return urlSerialize u

/-!
Auxiliary notions used by the statements, plus concrete fixtures the witness
theorems instantiate the statements with.
-/

/-- ASCII alphanumeric code point. -/
def isAlnumNat (n : Nat) : Bool :=
  (48 ≤ n && n ≤ 57) || (65 ≤ n && n ≤ 90) || (97 ≤ n && n ≤ 122)

/-- Account-id characters for which the connection-string round trip is
stated: ASCII alphanumerics and `- _ . ~`. -/
def hostSafe (c : Char) : Bool :=
  isAlnumNat c.toNat || c.toNat = 45 || c.toNat = 95 || c.toNat = 46 ||
  c.toNat = 126

/-- Bucket characters for which the connection-string round trip is stated:
ASCII alphanumerics and `- _ ~`. -/
def bucketSafe (c : Char) : Bool :=
  isAlnumNat c.toNat || c.toNat = 45 || c.toNat = 95 || c.toNat = 126

/-- Characters `encodeURIComponent` can emit: the characters it leaves
intact, `%`, and hex digits (which are alphanumeric). -/
def compSafe (c : Char) : Bool :=
  uriUnreserved c || c.toNat = 37

/-- Characters that survive the query scan and query percent-encode set
untouched (the serialised `publicUrl=...` query consists of these). -/
def qSafe (c : Char) : Bool :=
  isAlnumNat c.toNat || c.toNat = 42 || c.toNat = 45 || c.toNat = 46 ||
  c.toNat = 95 || c.toNat = 43 || c.toNat = 37 || c.toNat = 61

/-- Well-formed finite chain of list pages linked by continuation cursors:
every page but the last is truncated and carries a non-empty cursor, the
last page is not truncated. -/
def chainWF : List ListPage → Prop
  | [] => False
  | [p] => p.truncated = false
  | p :: rest => p.truncated = true ∧ (∃ c, p.cursor = some c ∧ c ≠ "") ∧ chainWF rest

/-- Expected request log over a page chain: one request per page, each with
limit 1000, the first with the starting cursor and each following request
with the previous page's cursor. -/
def chainReqs (pfx : Option String) : Option String → List ListPage → List ListReq
  | _, [] => []
  | cursor, p :: rest => listReqOf pfx cursor :: chainReqs pfx p.cursor rest

/-- Dummy cryptographic primitives for concrete evaluation of the signer. -/
def cpTest : CryptoPrim :=
  { digest := fun bs => bs.take 2, mac := fun k m => (k ++ m).take 2 }

/-- Concrete configuration used by witnesses. -/
def cfg₀ : R2Config :=
  { accountId := "acct", accessKeyId := "AK", secretAccessKey := "SK",
    bucket := "bkt" }

/-- Concrete 200 response whose ETag header value includes the quote
characters, as R2 sends it. -/
def putResp₀ : Response :=
  { status := 200, headers := [("etag", "\"abc123\"")] }

/-- Concrete 200 HEAD response with metadata headers. -/
def headResp₀ : Response :=
  { status := 200,
    headers := [("content-length", "2"), ("etag", "\"abc123\""),
                ("content-type", "text/plain")] }

/-- Concrete 404 response. -/
def notFoundResp : Response :=
  { status := 404 }

/-- Concrete 200 response whose body is not valid JSON. -/
def badJsonResp : Response :=
  { status := 200, body := "not json" }

/-- Concrete stored objects for the pagination witness. -/
def obj₁ : R2Object :=
  { key := "x/1", size := 1, etag := "e1", lastModified := .now }

/-- Second concrete stored object. -/
def obj₂ : R2Object :=
  { key := "x/2", size := 2, etag := "e2", lastModified := .now }

/-- Concrete two-page cursor chain. -/
def pages₀ : List ListPage :=
  [{ objects := [obj₁], truncated := true, cursor := some "c1" },
   { objects := [obj₂], truncated := false }]

/-- Descriptor `put` returns for key "k", body "x", empty options, a bare 200
response and `cfg₀`. -/
def putObj₀ : R2Object :=
  { key := "k", size := 1, etag := "", lastModified := .now,
    httpMetadata := some {} }

/-- Descriptor `copy` returns for destination "k" when the source `get` and
`head` observe `headResp₀` and the destination `put` observes `putResp₀`. -/
def copyObj₀ : R2Object :=
  { key := "k", size := 0, etag := "\"abc123\"", lastModified := .now,
    httpMetadata := some { contentType := some "text/plain" } }

/-- List XML in which the echoed top-level request prefix collides with a
common prefix nested inside a `CommonPrefixes` wrapper. -/
def xml₀ : String :=
  "<Prefix>a</Prefix><CommonPrefixes><Prefix>a</Prefix></CommonPrefixes>"

/-- Connection descriptor whose bucket contains a space. -/
def cfgSpace : R2Config :=
  { accountId := "a", accessKeyId := "k", secretAccessKey := "s",
    bucket := "b c" }

/-!
General lemmas about the record model.
-/

theorem recordGet_recordSet_self :
    ∀ (m : List (String × String)) (k v : String),
      recordGet (recordSet m k v) k = some v
  | [], k, v => by simp [recordSet, recordGet, List.find?]
  | (a, b) :: rest, k, v => by
    by_cases ha : a = k
    · simp [recordSet, recordGet, List.find?, ha]
    · simpa [recordSet, recordGet, List.find?, ha]
        using recordGet_recordSet_self rest k v

/-- One unfolding of the pagination loop. -/
theorem listAllGo_cons (pfx : Option String) (p : ListPage)
    (rest : List ListPage) (cursor : Option String) :
    listAllGo pfx (p :: rest) cursor =
      match truthy (if p.truncated then p.cursor else none) with
      | none => (p.objects, [listReqOf pfx cursor], true)
      | some c =>
        (p.objects ++ (listAllGo pfx rest (some c)).1,
         listReqOf pfx cursor :: (listAllGo pfx rest (some c)).2.1,
         (listAllGo pfx rest (some c)).2.2) := rfl

/-!
Theorems for the stated claims.
-/

/-- C1: signing is deterministic for a fixed clock value — two invocations of
`signRequest` on the same method, url, headers, body, credentials and region
that capture the same clock value produce byte-identical results, in
particular byte-identical `Authorization` headers. -/
theorem signRequest_deterministic (cp : CryptoPrim) (t₁ t₂ : String)
    (method url : String) (headers : List (String × String)) (body : JSBody)
    (accessKeyId secretAccessKey region : String) (hclock : t₁ = t₂) :
    signRequest cp t₁ method url headers body accessKeyId secretAccessKey region =
      signRequest cp t₂ method url headers body accessKeyId secretAccessKey region ∧
    (signRequest cp t₁ method url headers body accessKeyId secretAccessKey
        region).map (fun sr => recordGet sr.headers "Authorization") =
      (signRequest cp t₂ method url headers body accessKeyId secretAccessKey
        region).map (fun sr => recordGet sr.headers "Authorization") := by
  subst hclock
  exact ⟨rfl, rfl⟩

/-- Witness for C1 at concrete inputs. -/
theorem signRequest_deterministic_witness :
    signRequest cpTest "2024-01-01T00:00:00.000Z" "GET"
        "https://acct.r2.cloudflarestorage.com/bkt/k" [] (.str "") "AK" "SK"
        "auto" =
      signRequest cpTest "2024-01-01T00:00:00.000Z" "GET"
        "https://acct.r2.cloudflarestorage.com/bkt/k" [] (.str "") "AK" "SK"
        "auto" :=
  (signRequest_deterministic cpTest "2024-01-01T00:00:00.000Z"
    "2024-01-01T00:00:00.000Z" "GET" "https://acct.r2.cloudflarestorage.com/bkt/k"
    [] (.str "") "AK" "SK" "auto" rfl).1

/-- C3 counterexample: `put("a/b.txt", "hi", {contentType:"text/plain"})`
against a 200 response with ETag header value `"abc123"` (quotes included)
returns the etag with the quote characters intact — not stripped as the
claim states. -/
theorem put_etag_counterexample :
    putM cfg₀ "a/b.txt" (.str "hi") { contentType := some "text/plain" }
        putResp₀ =
      .ok { key := "a/b.txt", size := 2, etag := "\"abc123\"",
            lastModified := .now, url := none,
            httpMetadata := some { contentType := some "text/plain" },
            customMetadata := none } ∧
    ("\"abc123\"" : String) ≠ "abc123" := by
  exact ⟨rfl, by decide⟩

/-- C3 (amended): in the scenario of the claim the returned descriptor has
key "a/b.txt", size 2, `httpMetadata.contentType` "text/plain", and etag
exactly as received in the response header — quote characters included. -/
theorem put_scenario (cfg : R2Config) (hpub : cfg.publicUrl = none)
    (resp : Response) (h200 : resp.status = 200)
    (he : recordGet resp.headers "etag" = some "\"abc123\"") :
    putM cfg "a/b.txt" (.str "hi") { contentType := some "text/plain" } resp =
      .ok { key := "a/b.txt", size := 2, etag := "\"abc123\"",
            lastModified := .now, url := none,
            httpMetadata := some { contentType := some "text/plain" },
            customMetadata := none } := by
  unfold putM
  rw [h200, if_neg (by omega), he]
  unfold getPublicUrl
  rw [hpub]
  rfl

/-- Witness for the amended C3 at the concrete fixtures. -/
theorem put_scenario_witness :
    putM cfg₀ "a/b.txt" (.str "hi") { contentType := some "text/plain" }
        putResp₀ =
      .ok { key := "a/b.txt", size := 2, etag := "\"abc123\"",
            lastModified := .now, url := none,
            httpMetadata := some { contentType := some "text/plain" },
            customMetadata := none } :=
  put_scenario cfg₀ rfl putResp₀ rfl rfl

/-- C4: `exists` returns `true` exactly when `head` succeeds, `false` exactly
when `head` fails with the not-found error, and fails with the identical
`R2Error` exactly when `head` fails with any other error. -/
theorem exists_matches_head (cfg : R2Config) (key : String) (resp : Response) :
    (existsM cfg key resp = .ok true ↔ ∃ o, headM cfg key resp = .ok o) ∧
    (existsM cfg key resp = .ok false ↔
      ∃ b k, headM cfg key resp = .error (.notFound b k)) ∧
    (∀ e : R2Error,
      headM cfg key resp = .error (.err e) ↔ existsM cfg key resp = .error e) := by
  unfold existsM
  cases h : headM cfg key resp with
  | ok o => simp [h]
  | error f => cases f <;> simp [h]

/-- Witness for C4: a 404 response makes `head` fail not-found and `exists`
return `false`; a 200 response makes both succeed. -/
theorem exists_matches_head_witness :
    existsM cfg₀ "k" notFoundResp = .ok false ∧
    existsM cfg₀ "k" headResp₀ = .ok true :=
  ⟨(exists_matches_head cfg₀ "k" notFoundResp).2.1.mpr ⟨"bkt", "k", rfl⟩,
   (exists_matches_head cfg₀ "k" headResp₀).1.mpr ⟨_, rfl⟩⟩

/-- C5: `delete` succeeds on 404 and on every 2xx status, and fails with a
protocol error carrying the status on every other status. -/
theorem delete_status_contract (key : String) (resp : Response) :
    (resp.status = 404 → deleteM key resp = .ok ()) ∧
    (200 ≤ resp.status → resp.status < 300 → deleteM key resp = .ok ()) ∧
    (resp.status < 200 ∨ (300 ≤ resp.status ∧ resp.status ≠ 404) →
      deleteM key resp = .error { operation := "delete", message := resp.body,
                                  status := some resp.status }) := by
  unfold deleteM
  refine ⟨fun h => ?_, fun h₁ h₂ => ?_, fun h => ?_⟩
  · rw [if_neg (by omega)]
  · rw [if_neg (by omega)]
  · rw [if_pos h]

/-- Witness for C5 at statuses 404, 204 and 500. -/
theorem delete_status_contract_witness :
    deleteM "k" { status := 404 } = .ok () ∧
    deleteM "k" { status := 204 } = .ok () ∧
    deleteM "k" { status := 500 } =
      .error { operation := "delete", message := "", status := some 500 } :=
  ⟨(delete_status_contract "k" { status := 404 }).1 rfl,
   (delete_status_contract "k" { status := 204 }).2.1 (by decide) (by decide),
   (delete_status_contract "k" { status := 500 }).2.2 (by decide)⟩

/-- Pagination loop characterisation over a well-formed cursor chain. -/
theorem listAllGo_chain (pfx : Option String) :
    ∀ (pages : List ListPage) (cursor : Option String), chainWF pages →
      listAllGo pfx pages cursor =
        ((pages.map ListPage.objects).flatten, chainReqs pfx cursor pages, true)
  | [], _, h => absurd h (by simp [chainWF])
  | [p], cursor, h => by
    have ht : p.truncated = false := h
    rw [listAllGo_cons, ht]
    simp [chainReqs, truthy]
  | p :: q :: rest, cursor, h => by
    obtain ⟨ht, ⟨c, hc, hne⟩, hrest⟩ := h
    have ih := listAllGo_chain pfx (q :: rest) (some c) hrest
    rw [listAllGo_cons, ht, hc]
    have htr : truthy (some c) = some c := by simp [truthy, hne]
    simp [htr, ih, chainReqs, hc]

/-- Requests in a chained log all carry limit 1000. -/
theorem chainReqs_limit (pfx : Option String) :
    ∀ (cursor : Option String) (pages : List ListPage),
      ∀ r ∈ chainReqs pfx cursor pages, r.limit = some 1000
  | _, [], _, hr => absurd hr (by simp [chainReqs])
  | cursor, p :: rest, r, hr => by
    rw [chainReqs] at hr
    rcases List.mem_cons.mp hr with h | h
    · rw [h]; rfl
    · exact chainReqs_limit pfx p.cursor rest r h

/-- C6: over every well-formed finite chain of list pages linked by
continuation cursors, `listAll` terminates (the loop exits by seeing the
final non-truncated page) and returns the concatenation, in page order, of
every page's objects; it issues exactly one request per page, every request
carries limit (max-keys) 1000, and the requests' cursors are chained: none
for the first page, the previous page's cursor for each following page. -/
theorem listAll_paginates (pfx : Option String) (pages : List ListPage)
    (h : chainWF pages) :
    (listAllM pfx pages).1 = (pages.map ListPage.objects).flatten ∧
    (listAllM pfx pages).2.2 = true ∧
    (listAllM pfx pages).2.1 = chainReqs pfx none pages ∧
    (∀ r ∈ (listAllM pfx pages).2.1, r.limit = some 1000) := by
  unfold listAllM
  rw [listAllGo_chain pfx pages none h]
  exact ⟨rfl, rfl, rfl, chainReqs_limit pfx none pages⟩

/-- Witness for C6 on a concrete two-page chain. -/
theorem listAll_paginates_witness :
    (listAllM (some "x/") pages₀).1 = [obj₁, obj₂] ∧
    (listAllM (some "x/") pages₀).2.1 =
      [{ pfx := some "x/", cursor := none, limit := some 1000 },
       { pfx := some "x/", cursor := some "c1", limit := some 1000 }] := by
  have h := listAll_paginates (some "x/") pages₀ ⟨rfl, ⟨"c1", rfl, by decide⟩, rfl⟩
  exact ⟨by rw [h.1]; rfl, by rw [h.2.2.1]; rfl⟩

/-- C7 counterexample: on a document with an echoed top-level request prefix
tag whose value also occurs nested inside a `CommonPrefixes` wrapper, the
outside tag is included too — `delimitedPrefixes` lists the value twice,
whereas the values of `Prefix` tags nested inside `CommonPrefixes` wrappers
list it once. -/
theorem list_delimited_counterexample :
    delimitedPfxs xml₀.data = ["a".data, "a".data] ∧
    specNestedPfxValues xml₀.data = ["a".data] ∧
    delimitedPfxs xml₀.data ≠ specNestedPfxValues xml₀.data := by
  refine ⟨by decide, by decide, by decide⟩

/-- C7 (amended): `delimitedPrefixes` consists of exactly those `Prefix` tag
occurrences (anywhere in the document, outside or inside a wrapper, empty
values dropped) whose value `p` is such that the exact substring
`<CommonPrefixes><Prefix>p</Prefix></CommonPrefixes>` occurs somewhere in
the document. -/
theorem delimitedPfxs_mem (xml p : List Char) :
    p ∈ delimitedPfxs xml ↔
      p ∈ getAllTags "Prefix" xml ∧
      containsSeq xml ("<CommonPrefixes><Prefix>".data ++ p ++
        "</Prefix></CommonPrefixes>".data) = true := by
  unfold delimitedPfxs
  rw [List.mem_filter]

/-- C8 counterexample: on a 200 response whose body is not valid JSON,
`getJson` ends in an untyped defect (the `JSON.parse` throw escapes the typed
error channel) — it is not a typed, catchable failure of any kind. -/
theorem getJson_defect_counterexample :
    getJsonM cfg₀ "k" badJsonResp = .die "SyntaxError thrown by JSON.parse" ∧
    (∀ e : R2Fail, getJsonM cfg₀ "k" badJsonResp ≠ .fail e) := by
  refine ⟨by decide, fun e h => ?_⟩
  rw [show getJsonM cfg₀ "k" badJsonResp = .die "SyntaxError thrown by JSON.parse"
    by decide] at h
  exact Outcome.noConfusion h

/-- C8 (amended): whenever the transport answers 2xx with a body that is not
valid JSON, `getJson` dies with an untyped defect — there is no typed decode
error kind, and no typed failure is produced. -/
theorem getJson_invalid_body_defect (cfg : R2Config) (key : String)
    (resp : Response) (h₁ : 200 ≤ resp.status) (h₂ : resp.status < 300)
    (hb : jsonValid resp.body = false) :
    getJsonM cfg key resp = .die "SyntaxError thrown by JSON.parse" ∧
    (∀ e : R2Fail, getJsonM cfg key resp ≠ .fail e) := by
  have hout : getJsonM cfg key resp = .die "SyntaxError thrown by JSON.parse" := by
    unfold getJsonM getTextM getM
    rw [if_neg (by omega), if_neg (by omega)]
    simp [hb]
  exact ⟨hout, fun e h => Outcome.noConfusion (hout ▸ h)⟩

/-- Witness for the amended C8 at the concrete non-JSON response. -/
theorem getJson_invalid_body_defect_witness :
    getJsonM cfg₀ "k" badJsonResp = .die "SyntaxError thrown by JSON.parse" :=
  (getJson_invalid_body_defect cfg₀ "k" badJsonResp (by decide) (by decide)
    (by decide)).1

/-- C9: `head` never populates `customMetadata`, so `copy` always performs
its destination `put` with `customMetadata` undefined, and a copied object's
descriptor never carries custom metadata. -/
theorem copy_never_carries_custom_metadata (cfg : R2Config)
    (sourceKey destKey : String) (getResp headResp putResp : Response) :
    (∀ meta, headM cfg sourceKey headResp = .ok meta →
      meta.customMetadata = none ∧ (copyOpts meta).customMetadata = none) ∧
    (∀ obj, copyM cfg sourceKey destKey getResp headResp putResp = .ok obj →
      obj.customMetadata = none) := by
  have hhead : ∀ meta, headM cfg sourceKey headResp = .ok meta →
      meta.customMetadata = none := by
    intro meta h
    unfold headM at h
    split_ifs at h <;> try exact Except.noConfusion h
    cases h
    rfl
  refine ⟨fun meta h => ⟨hhead meta h, ?_⟩, fun obj h => ?_⟩
  · unfold copyOpts
    rw [hhead meta h]
  · unfold copyM at h
    cases hg : getM cfg sourceKey getResp with
    | error e => simp only [hg] at h; exact Except.noConfusion h
    | ok data =>
      simp only [hg] at h
      cases hh : headM cfg sourceKey headResp with
      | error e => simp only [hh] at h; exact Except.noConfusion h
      | ok meta =>
        simp only [hh] at h
        cases hp : putM cfg destKey (.bytes (utf8Str data)) (copyOpts meta)
            putResp with
        | error e => simp only [hp] at h; exact Except.noConfusion h
        | ok o =>
          simp only [hp, Except.ok.injEq] at h
          subst h
          unfold putM at hp
          split_ifs at hp <;> try exact Except.noConfusion hp
          cases hp
          show (copyOpts meta).customMetadata = none
          unfold copyOpts
          rw [hhead meta hh]

/-- Witness for C9 on concrete 200 responses. -/
theorem copy_never_carries_custom_metadata_witness :
    copyObj₀.customMetadata = none :=
  (copy_never_carries_custom_metadata cfg₀ "src" "k" headResp₀ headResp₀
    putResp₀).2 copyObj₀ rfl

/-- C10: when `options.contentType` is omitted, `put` sends the request with
`content-type` "application/octet-stream", but the descriptor it returns has
`httpMetadata.contentType` absent, reflecting the caller's options rather
than the headers sent. -/
theorem put_content_type_defaulting (cp : CryptoPrim) (nowIso : String)
    (cfg : R2Config) (key : String) (body : JSBody) (options : R2PutOptions)
    (resp : Response) (hct : options.contentType = none) :
    (∀ hs, putSentHeaders cp nowIso cfg key body options = some hs →
      recordGet hs "content-type" = some "application/octet-stream") ∧
    (∀ obj, putM cfg key body options resp = .ok obj →
      obj.httpMetadata = some { contentType := none,
                                cacheControl := options.cacheControl,
                                contentDisposition := options.contentDisposition }) := by
  constructor
  · intro hs h
    unfold putSentHeaders at h
    cases hsr : putSignedRequest cp nowIso cfg key body options with
    | none => rw [hsr] at h; exact Option.noConfusion h
    | some sr =>
      rw [hsr] at h
      simp only [Option.map_some'] at h
      cases h
      rw [recordGet_recordSet_self, hct]
      rfl
  · intro obj h
    unfold putM at h
    split_ifs at h <;> try exact Except.noConfusion h
    cases h
    rw [hct]

/-- Witness for C10: empty options against a bare 200 response. -/
theorem put_content_type_defaulting_witness :
    putObj₀.httpMetadata = some { contentType := none } :=
  (put_content_type_defaulting cpTest "2024-01-01T00:00:00.000Z" cfg₀ "k"
    (.str "x") {} { status := 200 } rfl).2 putObj₀ rfl

/-!
Lemmas towards the connection-string round trip (C2): character classes.
-/

theorem char_eq_iff (c d : Char) : c = d ↔ c.toNat = d.toNat := by
  constructor
  · intro h; rw [h]
  · intro h
    apply Char.eq_of_val_eq
    apply UInt32.eq_of_val_eq
    exact Fin.eq_of_val_eq h

theorem char_valid (c : Char) :
    c.toNat < 0xD800 ∨ (0xE000 ≤ c.toNat ∧ c.toNat < 0x110000) := c.valid

theorem alphanum_iff (c : Char) : c.isAlphanum = true ↔ isAlnumNat c.toNat = true := by
  unfold Char.isAlphanum Char.isAlpha Char.isUpper Char.isLower Char.isDigit
    isAlnumNat
  simp only [Bool.or_eq_true, Bool.and_eq_true, decide_eq_true_eq]
  constructor
  · rintro ((⟨h1, h2⟩ | ⟨h1, h2⟩) | ⟨h1, h2⟩)
    · exact Or.inl (Or.inr ⟨h1, h2⟩)
    · exact Or.inr ⟨h1, h2⟩
    · exact Or.inl (Or.inl ⟨h1, h2⟩)
  · rintro ((⟨h1, h2⟩ | ⟨h1, h2⟩) | ⟨h1, h2⟩)
    · exact Or.inr ⟨h1, h2⟩
    · exact Or.inl (Or.inl ⟨h1, h2⟩)
    · exact Or.inl (Or.inr ⟨h1, h2⟩)

theorem uriUnreserved_iff (c : Char) : uriUnreserved c = true ↔
    (isAlnumNat c.toNat = true ∨ c.toNat = 45 ∨ c.toNat = 95 ∨ c.toNat = 46 ∨
     c.toNat = 33 ∨ c.toNat = 126 ∨ c.toNat = 42 ∨ c.toNat = 39 ∨
     c.toNat = 40 ∨ c.toNat = 41) := by
  unfold uriUnreserved
  simp only [Bool.or_eq_true, alphanum_iff, decide_eq_true_eq, char_eq_iff,
    show ('-').toNat = 45 from rfl, show ('_').toNat = 95 from rfl,
    show ('.').toNat = 46 from rfl, show ('!').toNat = 33 from rfl,
    show ('~').toNat = 126 from rfl, show ('*').toNat = 42 from rfl,
    show ('(').toNat = 40 from rfl, show (')').toNat = 41 from rfl]
  tauto

theorem formSafe_iff (c : Char) : formSafe c = true ↔
    (isAlnumNat c.toNat = true ∨ c.toNat = 42 ∨ c.toNat = 45 ∨ c.toNat = 46 ∨
     c.toNat = 95) := by
  unfold formSafe
  simp only [Bool.or_eq_true, alphanum_iff, decide_eq_true_eq, char_eq_iff,
    show ('*').toNat = 42 from rfl, show ('-').toNat = 45 from rfl,
    show ('.').toNat = 46 from rfl, show ('_').toNat = 95 from rfl]
  tauto

/-- Numeric characterisation of `isAlnumNat`, for `omega`. -/
theorem isAlnumNat_iff (n : Nat) : isAlnumNat n = true ↔
    ((48 ≤ n ∧ n ≤ 57) ∨ (65 ≤ n ∧ n ≤ 90) ∨ (97 ≤ n ∧ n ≤ 122)) := by
  unfold isAlnumNat
  simp only [Bool.or_eq_true, Bool.and_eq_true, decide_eq_true_eq]
  tauto

theorem compSafe_facts (c : Char) (h : compSafe c = true) :
    userinfoSet c = false ∧ 32 < c.toNat ∧ c.toNat ≠ 47 ∧ c.toNat ≠ 63 ∧
    c.toNat ≠ 35 ∧ c.toNat ≠ 64 ∧ c.toNat ≠ 58 ∧ c.toNat ≠ 92 := by
  unfold compSafe at h
  rw [Bool.or_eq_true, uriUnreserved_iff, decide_eq_true_eq, isAlnumNat_iff] at h
  refine ⟨?_, by omega, by omega, by omega, by omega, by omega, by omega, by omega⟩
  rw [Bool.eq_false_iff]
  intro hb
  unfold userinfoSet pathSet querySet c0CtlSet at hb
  simp only [Bool.or_eq_true, decide_eq_true_eq, Bool.false_and,
    Bool.false_eq_true, or_false, false_or] at hb
  omega

theorem hostSafe_facts (c : Char) (h : hostSafe c = true) :
    forbiddenHost c = false ∧ c0CtlSet c = false ∧ 32 < c.toNat ∧
    c.toNat ≠ 47 ∧ c.toNat ≠ 63 ∧ c.toNat ≠ 35 ∧ c.toNat ≠ 64 ∧
    c.toNat ≠ 58 ∧ c.toNat ≠ 91 ∧ c.toNat ≠ 92 := by
  unfold hostSafe at h
  rw [Bool.or_eq_true, Bool.or_eq_true, Bool.or_eq_true, Bool.or_eq_true,
    isAlnumNat_iff] at h
  simp only [decide_eq_true_eq] at h
  refine ⟨?_, ?_, by omega, by omega, by omega, by omega, by omega, by omega,
    by omega, by omega⟩
  · rw [Bool.eq_false_iff]
    intro hb
    unfold forbiddenHost at hb
    simp only [Bool.or_eq_true, decide_eq_true_eq] at hb
    omega
  · rw [Bool.eq_false_iff]
    intro hb
    unfold c0CtlSet at hb
    simp only [Bool.or_eq_true, decide_eq_true_eq] at hb
    omega

theorem bucketSafe_facts (c : Char) (h : bucketSafe c = true) :
    pathSet c = false ∧ 32 < c.toNat ∧ c.toNat ≠ 63 ∧ c.toNat ≠ 35 ∧
    c.toNat ≠ 47 ∧ c.toNat ≠ 46 ∧ c.toNat ≠ 37 ∧ c.toNat ≠ 92 := by
  unfold bucketSafe at h
  rw [Bool.or_eq_true, Bool.or_eq_true, Bool.or_eq_true, isAlnumNat_iff] at h
  simp only [decide_eq_true_eq] at h
  refine ⟨?_, by omega, by omega, by omega, by omega, by omega, by omega, by omega⟩
  rw [Bool.eq_false_iff]
  intro hb
  unfold pathSet querySet c0CtlSet at hb
  simp only [Bool.or_eq_true, decide_eq_true_eq, Bool.false_and,
    Bool.false_eq_true, or_false, false_or] at hb
  omega

theorem qSafe_facts (c : Char) (h : qSafe c = true) :
    querySet false c = false ∧ 32 < c.toNat ∧ c.toNat ≠ 35 ∧ c.toNat ≠ 38 ∧
    c.toNat ≠ 63 ∧ c.toNat ≠ 47 := by
  unfold qSafe at h
  simp only [Bool.or_eq_true, decide_eq_true_eq, isAlnumNat_iff] at h
  refine ⟨?_, by omega, by omega, by omega, by omega, by omega⟩
  rw [Bool.eq_false_iff]
  intro hb
  unfold querySet c0CtlSet at hb
  simp only [Bool.or_eq_true, decide_eq_true_eq, Bool.false_and,
    Bool.false_eq_true, or_false, false_or] at hb
  omega

/-!
Lemmas towards the round trip: percent-encoding and UTF-8.
-/

theorem string_eq_iff (s t : String) : s = t ↔ s.data = t.data := by
  constructor
  · intro h; rw [h]
  · intro h; cases s; cases t; cases h; rfl

theorem hexVal_hexDigitU : ∀ n, n < 16 → hexVal (hexDigitU n) = some n := by decide

theorem hexDigitU_unreserved : ∀ n, n < 16 → uriUnreserved (hexDigitU n) = true := by
  decide

theorem hexDigitU_qSafe : ∀ n, n < 16 → qSafe (hexDigitU n) = true := by decide

theorem utf8Bytes_lt (c : Char) : ∀ b ∈ utf8Bytes c, b < 256 := by
  have hv := char_valid c
  dsimp only [utf8Bytes]
  split_ifs with h1 h2 h3 <;> intro b hb <;>
    simp only [List.mem_cons, List.mem_singleton, List.not_mem_nil, or_false] at hb <;>
    rcases hb with hb | hb | hb | hb <;> omega

theorem utf8Bytes_ne_nil (c : Char) : utf8Bytes c ≠ [] := by
  dsimp only [utf8Bytes]
  split_ifs <;> simp

theorem pctEncodeChar_compSafe (c : Char) :
    ∀ x ∈ pctEncodeChar c, compSafe x = true := by
  intro x hx
  unfold pctEncodeChar at hx
  obtain ⟨b, hb, hx⟩ := List.mem_flatMap.mp hx
  have hblt := utf8Bytes_lt c b hb
  simp only [List.mem_cons, List.mem_singleton, List.not_mem_nil, or_false] at hx
  rcases hx with hx | hx | hx <;> subst hx
  · rfl
  · unfold compSafe
    rw [hexDigitU_unreserved (b / 16) (by omega), Bool.true_or]
  · unfold compSafe
    rw [hexDigitU_unreserved (b % 16) (by omega), Bool.true_or]

theorem pctEncodeChar_qSafe (c : Char) :
    ∀ x ∈ pctEncodeChar c, qSafe x = true := by
  intro x hx
  unfold pctEncodeChar at hx
  obtain ⟨b, hb, hx⟩ := List.mem_flatMap.mp hx
  have hblt := utf8Bytes_lt c b hb
  simp only [List.mem_cons, List.mem_singleton, List.not_mem_nil, or_false] at hx
  rcases hx with hx | hx | hx <;> subst hx
  · rfl
  · exact hexDigitU_qSafe (b / 16) (by omega)
  · exact hexDigitU_qSafe (b % 16) (by omega)

theorem pctEncodeChar_ne_nil (c : Char) : pctEncodeChar c ≠ [] := by
  unfold pctEncodeChar
  cases hb : utf8Bytes c with
  | nil => exact absurd hb (utf8Bytes_ne_nil c)
  | cons b bs => simp

theorem encodeURIComponent_chars (s : String) :
    ∀ x ∈ (encodeURIComponent s).data, compSafe x = true := by
  intro x hx
  unfold encodeURIComponent encodeSet at hx
  obtain ⟨c, _, hx⟩ := List.mem_flatMap.mp hx
  dsimp only at hx
  by_cases hu : uriUnreserved c = true
  · rw [if_neg (by rw [hu]; simp)] at hx
    simp only [List.mem_singleton] at hx
    subst hx
    unfold compSafe
    rw [hu, Bool.true_or]
  · have hu' : uriUnreserved c = false := Bool.eq_false_iff.mpr hu
    rw [if_pos (by rw [hu']; rfl)] at hx
    exact pctEncodeChar_compSafe c x hx

theorem encodeURIComponent_ne_empty (s : String) (h : s ≠ "") :
    encodeURIComponent s ≠ "" := by
  intro hcontra
  apply h
  rw [string_eq_iff]
  show s.data = []
  have hc : (encodeURIComponent s).data = "".data := by rw [hcontra]
  have hc' : s.data.flatMap
      (fun c => if (!uriUnreserved c) = true then pctEncodeChar c else [c]) =
      ([] : List Char) := hc
  cases hd : s.data with
  | nil => rfl
  | cons c cs =>
    rw [hd] at hc'
    simp only [List.flatMap_cons, List.append_eq_nil] at hc'
    obtain ⟨h1, -⟩ := hc'
    by_cases hcnd : (!uriUnreserved c) = true
    · rw [if_pos hcnd] at h1
      exact (pctEncodeChar_ne_nil c h1).elim
    · rw [if_neg hcnd] at h1
      exact (List.cons_ne_nil c [] h1).elim

/-- Decoding the UTF-8 bytes of one character consumes exactly them and one
unit of fuel. -/
theorem utf8DecodeF_utf8Bytes (c : Char) (f : Nat) (t : List Nat) :
    utf8DecodeF (f + 1) (utf8Bytes c ++ t) =
      (utf8DecodeF f t).map (fun l => c :: l) := by
  have hv := char_valid c
  have hsc : charOfScalar c.toNat = some c := by
    unfold charOfScalar
    rw [if_pos hv, Char.ofNat_toNat]
  by_cases h1 : c.toNat < 0x80
  · have hb : utf8Bytes c = [c.toNat] := by
      dsimp only [utf8Bytes]
      rw [if_pos h1]
    rw [hb, List.singleton_append]
    simp only [utf8DecodeF]
    rw [if_pos h1, Char.ofNat_toNat]
  · by_cases h2 : c.toNat < 0x800
    · have hb : utf8Bytes c = [0xC0 + c.toNat / 64, 0x80 + c.toNat % 64] := by
        dsimp only [utf8Bytes]
        rw [if_neg h1, if_pos h2]
      rw [hb, List.cons_append, List.singleton_append]
      simp only [utf8DecodeF]
      rw [if_neg (by omega), if_neg (by omega), if_pos (by omega)]
      simp only [dec2]
      rw [if_pos (by omega)]
      rw [show (0xC0 + c.toNat / 64 - 0xC0) * 64 + (0x80 + c.toNat % 64 - 0x80) =
        c.toNat by omega]
      rw [hsc]
    · by_cases h3 : c.toNat < 0x10000
      · have hb : utf8Bytes c = [0xE0 + c.toNat / 4096, 0x80 + c.toNat / 64 % 64,
            0x80 + c.toNat % 64] := by
          dsimp only [utf8Bytes]
          rw [if_neg h1, if_neg h2, if_pos h3]
        rw [hb, List.cons_append, List.cons_append, List.singleton_append]
        simp only [utf8DecodeF]
        rw [if_neg (by omega), if_neg (by omega), if_neg (by omega),
          if_pos (by omega)]
        simp only [dec3]
        rw [if_pos (by omega)]
        rw [show (0xE0 + c.toNat / 4096 - 0xE0) * 4096 +
          (0x80 + c.toNat / 64 % 64 - 0x80) * 64 + (0x80 + c.toNat % 64 - 0x80) =
          c.toNat by omega]
        rw [if_neg (by omega), hsc]
      · have hb : utf8Bytes c = [0xF0 + c.toNat / 262144,
            0x80 + c.toNat / 4096 % 64, 0x80 + c.toNat / 64 % 64,
            0x80 + c.toNat % 64] := by
          dsimp only [utf8Bytes]
          rw [if_neg h1, if_neg h2, if_neg h3]
        rw [hb, List.cons_append, List.cons_append, List.cons_append,
          List.singleton_append]
        simp only [utf8DecodeF]
        rw [if_neg (by omega), if_neg (by omega), if_neg (by omega),
          if_neg (by omega), if_pos (by omega)]
        simp only [dec4]
        rw [if_pos (by omega)]
        rw [show (0xF0 + c.toNat / 262144 - 0xF0) * 262144 +
          (0x80 + c.toNat / 4096 % 64 - 0x80) * 4096 +
          (0x80 + c.toNat / 64 % 64 - 0x80) * 64 + (0x80 + c.toNat % 64 - 0x80) =
          c.toNat by omega]
        rw [if_neg (by omega), hsc]

/-- Strict UTF-8 decoding inverts per-character encoding. -/
theorem utf8DecodeF_flat (s : List Char) :
    ∀ f, s.length < f → utf8DecodeF f (s.flatMap utf8Bytes) = some s := by
  induction s with
  | nil =>
    intro f hf
    cases f with
    | zero => omega
    | succ f' => rfl
  | cons c cs ih =>
    intro f hf
    cases f with
    | zero => omega
    | succ f' =>
      rw [List.flatMap_cons, utf8DecodeF_utf8Bytes,
        ih f' (by simpa using Nat.lt_of_succ_lt_succ hf)]
      rfl

/-- Character count is bounded by UTF-8 byte count. -/
theorem flatMap_utf8_length (s : List Char) :
    s.length ≤ (s.flatMap utf8Bytes).length := by
  induction s with
  | nil => simp
  | cons c cs ih =>
    rw [List.flatMap_cons, List.length_append, List.length_cons]
    have : 1 ≤ (utf8Bytes c).length := by
      cases hb : utf8Bytes c with
      | nil => exact absurd hb (utf8Bytes_ne_nil c)
      | cons b bs => simp
    omega

/-- The byte-assembly of `decodeURIComponent` inverts groups of percent
escapes. -/
theorem pctBytes_groups (bs : List Nat) (hbs : ∀ b ∈ bs, b < 256)
    (t : List Char) :
    pctBytes ((bs.flatMap fun b =>
      ['%', hexDigitU (b / 16), hexDigitU (b % 16)]) ++ t) =
      (pctBytes t).map (fun l => bs ++ l) := by
  induction bs with
  | nil =>
    simp only [List.flatMap_nil, List.nil_append]
    cases pctBytes t <;> rfl
  | cons b bs' ih =>
    have hb : b < 256 := hbs b (List.mem_cons_self b bs')
    rw [List.flatMap_cons]
    show pctBytes ('%' :: hexDigitU (b / 16) :: hexDigitU (b % 16) ::
      ((bs'.flatMap fun b => ['%', hexDigitU (b / 16), hexDigitU (b % 16)]) ++ t)) = _
    simp only [pctBytes]
    rw [if_pos (show ('%').toNat = 37 from rfl)]
    have hhp : hexPair (hexDigitU (b / 16)) (hexDigitU (b % 16)) = some b := by
      unfold hexPair
      rw [hexVal_hexDigitU (b / 16) (by omega), hexVal_hexDigitU (b % 16) (by omega)]
      show some (16 * (b / 16) + b % 16) = some b
      congr 1
      omega
    rw [hhp, ih (fun x hx => hbs x (List.mem_cons_of_mem b hx))]
    cases pctBytes t <;> rfl

/-- Step equation of `pctBytes` at a non-`%` character. -/
theorem pctBytes_cons_plain (c : Char) (r : List Char) (h : c.toNat ≠ 37) :
    pctBytes (c :: r) = (pctBytes r).map (fun bs => utf8Bytes c ++ bs) := by
  rw [pctBytes.eq_def]
  simp only []
  rw [if_neg h]

/-- The byte-assembly of `decodeURIComponent` inverts one encoded character. -/
theorem pctBytes_pctEncodeChar (c : Char) (t : List Char) :
    pctBytes (pctEncodeChar c ++ t) =
      (pctBytes t).map (fun l => utf8Bytes c ++ l) := by
  unfold pctEncodeChar
  exact pctBytes_groups (utf8Bytes c) (utf8Bytes_lt c) t

/-- One unfolding of `encodeSet` at a head character. -/
theorem encodeSet_cons (inSet : Char → Bool) (c : Char) (cs : List Char) :
    encodeSet inSet (c :: cs) =
      (if inSet c then pctEncodeChar c else [c]) ++ encodeSet inSet cs := by
  unfold encodeSet
  rw [List.flatMap_cons]

/-- The byte assembly of `decodeURIComponent` inverts `encodeURIComponent`. -/
theorem pctBytes_encode (s : List Char) :
    pctBytes (encodeSet (fun c => !uriUnreserved c) s) =
      some (s.flatMap utf8Bytes) := by
  induction s with
  | nil => rfl
  | cons c cs ih =>
    rw [encodeSet_cons, List.flatMap_cons]
    by_cases hu : uriUnreserved c = true
    · rw [if_neg (by rw [hu]; simp)]
      have h37 : c.toNat ≠ 37 := by
        rw [uriUnreserved_iff, isAlnumNat_iff] at hu
        omega
      rw [List.singleton_append, pctBytes_cons_plain c _ h37, ih]
      rfl
    · have hu' : uriUnreserved c = false := Bool.eq_false_iff.mpr hu
      rw [if_pos (by rw [hu']; rfl), pctBytes_pctEncodeChar, ih]
      rfl

/-- Round trip of `decodeURIComponent` after `encodeURIComponent`. -/
theorem decodeURIComponentM_encode (s : String) :
    decodeURIComponentM (encodeURIComponent s) = some s := by
  unfold decodeURIComponentM encodeURIComponent
  have hd : (⟨encodeSet (fun c => !uriUnreserved c) s.data⟩ : String).data =
      encodeSet (fun c => !uriUnreserved c) s.data := rfl
  rw [hd, pctBytes_encode]
  show (utf8DecodeF ((s.data.flatMap utf8Bytes).length + 1)
    (s.data.flatMap utf8Bytes)).bind (fun cs => some (⟨cs⟩ : String)) = some s
  rw [utf8DecodeF_flat s.data _ (by have := flatMap_utf8_length s.data; omega)]
  rfl

/-- Form decoding inverts groups of percent escapes. -/
theorem formDecodeBytes_groups (bs : List Nat) (hbs : ∀ b ∈ bs, b < 256)
    (t : List Char) :
    formDecodeBytes ((bs.flatMap fun b =>
      ['%', hexDigitU (b / 16), hexDigitU (b % 16)]) ++ t) =
      bs ++ formDecodeBytes t := by
  induction bs with
  | nil => simp
  | cons b bs' ih =>
    have hb : b < 256 := hbs b (List.mem_cons_self b bs')
    rw [List.flatMap_cons]
    show formDecodeBytes ('%' :: hexDigitU (b / 16) :: hexDigitU (b % 16) ::
      ((bs'.flatMap fun b => ['%', hexDigitU (b / 16), hexDigitU (b % 16)]) ++ t)) = _
    rw [formDecodeBytes.eq_def]
    simp only []
    rw [if_neg (by decide), if_pos (by decide)]
    have hhp : hexPair (hexDigitU (b / 16)) (hexDigitU (b % 16)) = some b := by
      unfold hexPair
      rw [hexVal_hexDigitU (b / 16) (by omega), hexVal_hexDigitU (b % 16) (by omega)]
      show some (16 * (b / 16) + b % 16) = some b
      congr 1
      omega
    rw [hhp, ih (fun x hx => hbs x (List.mem_cons_of_mem b hx))]
    rfl

/-- Step equation of `formDecodeBytes` at a plain character. -/
theorem formDecodeBytes_cons_plain (c : Char) (r : List Char)
    (h43 : c.toNat ≠ 43) (h37 : c.toNat ≠ 37) :
    formDecodeBytes (c :: r) = utf8Bytes c ++ formDecodeBytes r := by
  rw [formDecodeBytes.eq_def]
  simp only []
  rw [if_neg h43, if_neg h37]

/-- One unfolding of `formEncode` at a head character. -/
theorem formEncode_cons (c : Char) (cs : List Char) :
    (formEncode ⟨c :: cs⟩).data =
      (if formSafe c then [c] else if c = ' ' then ['+'] else pctEncodeChar c) ++
        (formEncode ⟨cs⟩).data := by
  unfold formEncode
  show (c :: cs).flatMap
      (fun c => if formSafe c = true then [c]
                else if c = ' ' then ['+'] else pctEncodeChar c) =
    (if formSafe c = true then [c]
     else if c = ' ' then ['+'] else pctEncodeChar c) ++
    cs.flatMap
      (fun c => if formSafe c = true then [c]
                else if c = ' ' then ['+'] else pctEncodeChar c)
  rw [List.flatMap_cons]

/-- Form byte decoding inverts form encoding. -/
theorem formDecodeBytes_encode (s : List Char) :
    formDecodeBytes ((formEncode ⟨s⟩).data) = s.flatMap utf8Bytes := by
  induction s with
  | nil =>
    show formDecodeBytes [] = []
    rw [formDecodeBytes.eq_def]
  | cons c cs ih =>
    rw [formEncode_cons, List.flatMap_cons]
    by_cases hsafe : formSafe c = true
    · have hn : isAlnumNat c.toNat = true ∨ c.toNat = 42 ∨ c.toNat = 45 ∨
          c.toNat = 46 ∨ c.toNat = 95 := (formSafe_iff c).mp hsafe
      rw [isAlnumNat_iff] at hn
      rw [if_pos hsafe, List.singleton_append,
        formDecodeBytes_cons_plain c _ (by omega) (by omega), ih]
    · rw [if_neg hsafe]
      by_cases hsp : c = ' '
      · subst hsp
        rw [if_pos rfl, List.singleton_append, formDecodeBytes.eq_def]
        simp only []
        rw [if_pos (by decide), ih]
        rfl
      · rw [if_neg hsp]
        unfold pctEncodeChar
        rw [formDecodeBytes_groups (utf8Bytes c) (utf8Bytes_lt c), ih]

/-- Round trip of form decoding after form encoding. -/
theorem formDecode_formEncode (v : String) :
    formDecode (formEncode v).data = some v := by
  unfold formDecode
  have hv : (formEncode v).data = (formEncode ⟨v.data⟩).data := rfl
  rw [hv, formDecodeBytes_encode]
  rw [utf8DecodeF_flat v.data _ (by have := flatMap_utf8_length v.data; omega)]
  rfl

/-!
Lemmas towards the round trip: list scanning helpers.
-/

theorem takeWhile_append_stop {p : Char → Bool} (xs : List Char) (c : Char)
    (ys : List Char) (hxs : ∀ a ∈ xs, p a = true) (hc : p c = false) :
    (xs ++ c :: ys).takeWhile p = xs := by
  rw [List.takeWhile_append, List.takeWhile_eq_self_iff.mpr hxs, if_pos rfl,
    List.takeWhile_cons, hc]
  simp

theorem drop_append_cons (xs : List Char) (rest : List Char) :
    (xs ++ rest).drop xs.length = rest :=
  List.drop_left xs rest

theorem encodeSet_nop (inSet : Char → Bool) (l : List Char)
    (h : ∀ c ∈ l, inSet c = false) : encodeSet inSet l = l := by
  induction l with
  | nil => rfl
  | cons c cs ih =>
    rw [encodeSet_cons, if_neg (by rw [h c (List.mem_cons_self c cs)]; simp),
      List.singleton_append, ih (fun x hx => h x (List.mem_cons_of_mem c hx))]

theorem splitFirst_none (sep : Char) (a : List Char) (ha : ∀ c ∈ a, c ≠ sep) :
    splitFirst sep a = (a, none) := by
  unfold splitFirst
  rw [List.takeWhile_eq_self_iff.mpr (fun x hx => by simp [ha x hx]), if_pos rfl]

theorem splitFirst_concat (sep : Char) (a b : List Char)
    (ha : ∀ c ∈ a, c ≠ sep) : splitFirst sep (a ++ sep :: b) = (a, some b) := by
  unfold splitFirst
  have h1 : (a ++ sep :: b).takeWhile (fun c => c ≠ sep) = a :=
    takeWhile_append_stop a sep b (fun x hx => by simp [ha x hx]) (by simp)
  rw [h1, if_neg (by simp +arith), show a ++ sep :: b = (a ++ [sep]) ++ b by simp]
  rw [show a.length + 1 = (a ++ [sep]).length by simp,
    drop_append_cons (a ++ [sep]) b]

theorem splitAtLastAt_none (l : List Char) (h : ∀ c ∈ l, c ≠ '@') :
    splitAtLastAt l = none := by
  unfold splitAtLastAt
  rw [if_neg]
  simp only [List.any_eq_true, decide_eq_true_eq, not_exists]
  intro x hx
  exact h x hx.1 hx.2

theorem splitAtLastAt_last (ui hp : List Char) (hhp : ∀ c ∈ hp, c ≠ '@') :
    splitAtLastAt (ui ++ '@' :: hp) = some (ui, hp) := by
  unfold splitAtLastAt
  have hany : ((ui ++ '@' :: hp).any (fun c => c = '@')) = true := by
    simp only [List.any_eq_true, decide_eq_true_eq]
    exact ⟨'@', by simp, rfl⟩
  rw [if_pos hany]
  have hrev : (ui ++ '@' :: hp).reverse = hp.reverse ++ '@' :: ui.reverse := by
    simp
  rw [hrev]
  dsimp only
  have h1 : (hp.reverse ++ '@' :: ui.reverse).takeWhile (fun c => c ≠ '@') =
      hp.reverse :=
    takeWhile_append_stop hp.reverse '@' ui.reverse
      (fun x hx => by simp [hhp x (List.mem_reverse.mp hx)]) (by simp)
  rw [h1, show hp.reverse.length + 1 = (hp.reverse ++ ['@']).length by simp,
    show hp.reverse ++ '@' :: ui.reverse = (hp.reverse ++ ['@']) ++ ui.reverse
      by simp,
    drop_append_cons (hp.reverse ++ ['@']) ui.reverse]
  simp

theorem splitOnP_no_sep (p : Char → Bool) (l : List Char)
    (h : ∀ c ∈ l, p c = false) : l.splitOnP p = [l] := by
  induction l with
  | nil => rfl
  | cons c cs ih =>
    rw [List.splitOnP_cons, h c (List.mem_cons_self c cs)]
    simp only [Bool.false_eq_true, if_false]
    rw [ih (fun x hx => h x (List.mem_cons_of_mem c hx))]
    rfl

theorem splitOn_no_sep (x : Char) (l : List Char) (h : ∀ c ∈ l, c ≠ x) :
    l.splitOn x = [l] := by
  unfold List.splitOn
  exact splitOnP_no_sep _ l (fun c hc => by simp [h c hc])

theorem dropWhile_id_of_head {p : Char → Bool} (l : List Char)
    (h : ∀ c ∈ l, p c = false) : l.dropWhile p = l := by
  cases l with
  | nil => rfl
  | cons c cs =>
    rw [List.dropWhile_cons, h c (List.mem_cons_self c cs)]
    simp

theorem urlPreprocess_id (l : List Char) (h : ∀ c ∈ l, 32 < c.toNat) :
    urlPreprocess l = l := by
  unfold urlPreprocess
  rw [dropWhile_id_of_head l (fun c hc => by
    simp only [decide_eq_false_iff_not, not_le]
    exact h c hc)]
  rw [dropWhile_id_of_head l.reverse (fun c hc => by
    simp only [decide_eq_false_iff_not, not_le]
    exact h c (List.mem_reverse.mp hc))]
  rw [List.reverse_reverse]
  rw [List.filter_eq_self.mpr (fun c hc => by
    have := h c hc
    simp only [Bool.and_eq_true, decide_eq_true_eq]
    omega)]

/-!
Lemmas towards the round trip: shapes of the URL parse.
-/

theorem parseScheme_r2 (rest : List Char) :
    parseScheme ('r' :: '2' :: ':' :: rest) = some ("r2", rest) := rfl

theorem ofNat_toNat_lower :
    ∀ n, n < 91 → 65 ≤ n → (Char.ofNat (n + 32)).toNat = n + 32 := by decide

theorem toLower_toNat (c : Char) :
    (Char.toLower c).toNat = c.toNat ∨
    ((Char.toLower c).toNat = c.toNat + 32 ∧ 65 ≤ c.toNat ∧ c.toNat ≤ 90) := by
  unfold Char.toLower
  dsimp only
  split_ifs with h
  · exact Or.inr ⟨ofNat_toNat_lower c.toNat (by omega) h.1, h.1, h.2⟩
  · exact Or.inl rfl

theorem bucketSafe_no_lower_special (B : List Char)
    (hB : ∀ c ∈ B, bucketSafe c = true) (t : List Char)
    (ht : B.map Char.toLower = t) (h₀ : Char) (hh : t.head? = some h₀)
    (hn : h₀.toNat = 46 ∨ h₀.toNat = 37) : False := by
  cases B with
  | nil => rw [← ht] at hh; exact Option.noConfusion hh
  | cons b B' =>
    rw [← ht] at hh
    simp only [List.map_cons, List.head?_cons, Option.some.injEq] at hh
    have hb := bucketSafe_facts b (hB b (List.mem_cons_self b B'))
    rcases toLower_toNat b with h | ⟨h, hlo, hhi⟩ <;> rw [← hh] at hn <;>
      rw [h] at hn <;> omega

theorem bucketSafe_not_dot (B : List Char)
    (hB : ∀ c ∈ B, bucketSafe c = true) :
    isSingleDotSeg B = false ∧ isDoubleDotSeg B = false := by
  constructor
  · rw [Bool.eq_false_iff]
    intro h
    unfold isSingleDotSeg at h
    rw [Bool.or_eq_true] at h
    rcases h with h | h
    · rw [decide_eq_true_eq] at h
      have hf := bucketSafe_facts '.'
        (hB '.' (by rw [h]; exact List.mem_cons_self _ _))
      have h46 : ('.').toNat = 46 := rfl
      omega
    · rw [decide_eq_true_eq] at h
      exact bucketSafe_no_lower_special B hB _ h '%' rfl (Or.inr rfl)
  · rw [Bool.eq_false_iff]
    intro h
    unfold isDoubleDotSeg at h
    simp only [Bool.or_eq_true, decide_eq_true_eq] at h
    rcases h with ((h | h) | h) | h
    · exact bucketSafe_no_lower_special B hB _ h '.' rfl (Or.inl rfl)
    · exact bucketSafe_no_lower_special B hB _ h '.' rfl (Or.inl rfl)
    · exact bucketSafe_no_lower_special B hB _ h '%' rfl (Or.inr rfl)
    · exact bucketSafe_no_lower_special B hB _ h '%' rfl (Or.inr rfl)

theorem procSegs_single (B : List Char) (hB : ∀ c ∈ B, bucketSafe c = true) :
    procSegs [B] = [(⟨B⟩ : String)] := by
  obtain ⟨h1, h2⟩ := bucketSafe_not_dot B hB
  unfold procSegs
  simp only [List.foldl_cons, List.foldl_nil, h1, h2, Bool.false_eq_true,
    if_false, List.nil_append, Bool.or_self]
  rw [encodeSet_nop pathSet B (fun c hc => (bucketSafe_facts c (hB c hc)).1)]
  rw [show ([B].getLast? : Option (List Char)) = some B from rfl]
  simp [h1, h2]

theorem parseHostPort_safe (A : List Char)
    (hA : ∀ c ∈ A, hostSafe c = true) (hA0 : A ≠ []) :
    parseHostPort "r2" false A = some (some (⟨A⟩ : String), none) := by
  have hhead : A.head? ≠ some '[' := by
    cases A with
    | nil => simp
    | cons a A' =>
      simp only [List.head?_cons, ne_eq, Option.some.injEq]
      intro hcontra
      have hf := hostSafe_facts a (hA a (List.mem_cons_self a A'))
      rw [char_eq_iff] at hcontra
      have h91 : ('[').toNat = 91 := rfl
      omega
  have hsplit : splitHostPort A = (A, none) := by
    unfold splitHostPort
    rw [if_neg hhead]
    exact splitFirst_none ':' A (fun c hc => by
      have hf := hostSafe_facts c (hA c hc)
      simp only [ne_eq, char_eq_iff, show (':').toNat = 58 from rfl]
      omega)
  unfold parseHostPort
  rw [hsplit]
  have hhp : hostParse false A ((A.takeWhile (fun c => c ≠ ']')).length < A.length)
      = some (⟨A⟩ : String) := by
    unfold hostParse
    rw [if_neg hhead, if_neg hA0]
    simp only [Bool.false_eq_true, if_false]
    rw [show A.any forbiddenHost = false from by
      rw [List.any_eq_false]
      intro c hc
      rw [(hostSafe_facts c (hA c hc)).1]
      simp]
    simp only [Bool.false_eq_true, if_false]
    rw [encodeSet_nop c0CtlSet A (fun c hc => (hostSafe_facts c (hA c hc)).2.1)]
  rw [hhp]
  rfl

theorem bucketSafe_pathScan (B : List Char) (hB : ∀ c ∈ B, bucketSafe c = true) :
    ∀ x ∈ '/' :: B, (decide (x ≠ '?') && decide (x ≠ '#')) = true := by
  intro x hx
  rcases List.mem_cons.mp hx with rfl | hx
  · decide
  · have hf := bucketSafe_facts x (hB x hx)
    simp only [Bool.and_eq_true, decide_eq_true_eq, ne_eq, char_eq_iff,
      show ('?').toNat = 63 from rfl, show ('#').toNat = 35 from rfl]
    omega

theorem parsePathQF_noQ (B : List Char) (hB : ∀ c ∈ B, bucketSafe c = true) :
    parsePathQF false ('/' :: B) = ([(⟨B⟩ : String)], none, none) := by
  have hpath : ('/' :: B).takeWhile (fun c => c ≠ '?' && c ≠ '#') = '/' :: B :=
    List.takeWhile_eq_self_iff.mpr (bucketSafe_pathScan B hB)
  unfold parsePathQF
  dsimp only
  rw [hpath, List.drop_length]
  simp only []
  rw [show pathDelimMap false ('/' :: B) = '/' :: B from rfl]
  rw [show ('/' :: B).drop 1 = B from rfl]
  rw [splitOn_no_sep '/' B (fun c hc => by
    have hf := bucketSafe_facts c (hB c hc)
    simp only [ne_eq, char_eq_iff, show ('/').toNat = 47 from rfl]
    omega)]
  rw [procSegs_single B hB]
  rfl

theorem parsePathQF_withQ (B : List Char) (hB : ∀ c ∈ B, bucketSafe c = true)
    (qs : List Char) (hqs : ∀ c ∈ qs, qSafe c = true) :
    parsePathQF false (('/' :: B) ++ '?' :: qs) =
      ([(⟨B⟩ : String)], some (⟨qs⟩ : String), none) := by
  have hpath : (('/' :: B) ++ '?' :: qs).takeWhile
      (fun c => c ≠ '?' && c ≠ '#') = '/' :: B :=
    takeWhile_append_stop ('/' :: B) '?' qs (bucketSafe_pathScan B hB) (by decide)
  unfold parsePathQF
  dsimp only
  rw [hpath, show (('/' :: B) ++ '?' :: qs).drop ('/' :: B).length = '?' :: qs
    from drop_append_cons ('/' :: B) ('?' :: qs)]
  simp only []
  rw [List.takeWhile_eq_self_iff.mpr (fun x hx => by
    have hf := qSafe_facts x (hqs x hx)
    simp only [decide_eq_true_eq, ne_eq, char_eq_iff,
      show ('#').toNat = 35 from rfl]
    omega)]
  rw [List.drop_length]
  rw [show pathDelimMap false ('/' :: B) = '/' :: B from rfl]
  rw [show ('/' :: B).drop 1 = B from rfl]
  rw [splitOn_no_sep '/' B (fun c hc => by
    have hf := bucketSafe_facts c (hB c hc)
    simp only [ne_eq, char_eq_iff, show ('/').toNat = 47 from rfl]
    omega)]
  rw [procSegs_single B hB]
  rw [show Option.map (fun q => ({ data := encodeSet (querySet false) q } : String))
    (some qs) = some ⟨encodeSet (querySet false) qs⟩ from rfl]
  rw [encodeSet_nop (querySet false) qs
    (fun c hc => (qSafe_facts c (hqs c hc)).1)]
  rfl

/-!
Lemmas towards the round trip: full authority parse and the serialised form.
-/

theorem formSafe_qSafe (c : Char) (h : formSafe c = true) : qSafe c = true := by
  rw [formSafe_iff, isAlnumNat_iff] at h
  unfold qSafe
  simp only [Bool.or_eq_true, decide_eq_true_eq, isAlnumNat_iff]
  omega

theorem formEncode_chars (s : String) :
    ∀ x ∈ (formEncode s).data, qSafe x = true := by
  intro x hx
  unfold formEncode at hx
  obtain ⟨c, _, hx⟩ := List.mem_flatMap.mp hx
  by_cases hf : formSafe c = true
  · rw [if_pos hf] at hx
    simp only [List.mem_singleton] at hx
    rw [hx]
    exact formSafe_qSafe c hf
  · rw [if_neg hf] at hx
    by_cases hsp : c = ' '
    · rw [if_pos hsp] at hx
      simp only [List.mem_singleton] at hx
      rw [hx]
      decide
    · rw [if_neg hsp] at hx
      exact pctEncodeChar_qSafe c x hx

theorem cannotHaveCreds_false (u : URLRec) (a : String) (h : u.host = some a)
    (ha : a ≠ "") (hs : u.scheme ≠ "file") : cannotHaveCreds u = false := by
  unfold cannotHaveCreds
  rw [h]
  simp [ha, hs]

theorem urlParse_r2 (T : List Char) (hT : ∀ c ∈ T, 32 < c.toNat) :
    urlParse ('r' :: '2' :: ':' :: '/' :: '/' :: T) =
      parseWithAuthority "r2" false T := by
  unfold urlParse
  rw [urlPreprocess_id _ (by
    intro c hc
    simp only [List.mem_cons] at hc
    rcases hc with rfl | rfl | rfl | rfl | rfl | hc
    · decide
    · decide
    · decide
    · decide
    · decide
    · exact hT c hc)]
  rfl

theorem parseAuthRest_noQ (U P A B : List Char)
    (hA : ∀ c ∈ A, hostSafe c = true) (hA0 : A ≠ [])
    (hB : ∀ c ∈ B, bucketSafe c = true) :
    parseAuthRest "r2" false U P A ('/' :: B) =
      some { scheme := "r2", username := ⟨U⟩, password := ⟨P⟩,
             host := some (⟨A⟩ : String), port := none,
             pathSegs := [(⟨B⟩ : String)], rawPath := none,
             query := none, fragment := none } := by
  unfold parseAuthRest
  rw [parseHostPort_safe A hA hA0]
  simp only []
  rw [parsePathQF_noQ B hB]
  rfl

theorem parseAuthRest_withQ (U P A B qs : List Char)
    (hA : ∀ c ∈ A, hostSafe c = true) (hA0 : A ≠ [])
    (hB : ∀ c ∈ B, bucketSafe c = true)
    (hqs : ∀ c ∈ qs, qSafe c = true) :
    parseAuthRest "r2" false U P A ('/' :: (B ++ '?' :: qs)) =
      some { scheme := "r2", username := ⟨U⟩, password := ⟨P⟩,
             host := some (⟨A⟩ : String), port := none,
             pathSegs := [(⟨B⟩ : String)], rawPath := none,
             query := some (⟨qs⟩ : String), fragment := none } := by
  unfold parseAuthRest
  rw [parseHostPort_safe A hA hA0]
  simp only []
  rw [show ('/' :: (B ++ '?' :: qs)) = ('/' :: B) ++ '?' :: qs from rfl]
  rw [parsePathQF_withQ B hB qs hqs]
  rfl

theorem parseWithAuthority_plain (A B : List Char)
    (hA : ∀ c ∈ A, hostSafe c = true) (hA0 : A ≠ [])
    (hB : ∀ c ∈ B, bucketSafe c = true) :
    parseWithAuthority "r2" false (A ++ '/' :: B) =
      some { scheme := "r2", username := "", password := "",
             host := some (⟨A⟩ : String), port := none,
             pathSegs := [(⟨B⟩ : String)], rawPath := none,
             query := none, fragment := none } := by
  have hpred : ∀ a ∈ A,
      (decide (a ≠ '/') && decide (a ≠ '?') && decide (a ≠ '#') &&
        !(false && decide (a.toNat = 92))) = true := by
    intro a ha
    have hf := hostSafe_facts a (hA a ha)
    simp only [Bool.false_and, Bool.not_false, Bool.and_true, Bool.and_eq_true,
      decide_eq_true_eq, ne_eq, char_eq_iff,
      show ('/').toNat = 47 from rfl, show ('?').toNat = 63 from rfl,
      show ('#').toNat = 35 from rfl]
    refine ⟨⟨?_, ?_⟩, ?_⟩ <;> omega
  unfold parseWithAuthority
  dsimp only
  rw [takeWhile_append_stop A '/' B hpred (by decide),
    drop_append_cons A ('/' :: B)]
  rw [splitAtLastAt_none A (fun c hc => by
    have hf := hostSafe_facts c (hA c hc)
    simp only [ne_eq, char_eq_iff, show ('@').toNat = 64 from rfl]
    omega)]
  simp only []
  exact parseAuthRest_noQ [] [] A B hA hA0 hB

theorem parseWithAuthority_ui (U P A C : List Char)
    (hU : ∀ c ∈ U, compSafe c = true) (hP : ∀ c ∈ P, compSafe c = true)
    (hA : ∀ c ∈ A, hostSafe c = true) (hA0 : A ≠ []) :
    parseWithAuthority "r2" false (U ++ ':' :: P ++ '@' :: A ++ '/' :: C) =
      parseAuthRest "r2" false U P A ('/' :: C) := by
  have hpred : ∀ a ∈ U ++ ':' :: P ++ '@' :: A,
      (decide (a ≠ '/') && decide (a ≠ '?') && decide (a ≠ '#') &&
        !(false && decide (a.toNat = 92))) = true := by
    intro a ha
    simp only [List.mem_append, List.mem_cons] at ha
    have key : 32 < a.toNat ∧ a.toNat ≠ 47 ∧ a.toNat ≠ 63 ∧ a.toNat ≠ 35 := by
      rcases ha with (hU' | rfl | hP') | rfl | hA'
      · have hf := compSafe_facts a (hU a hU')
        exact ⟨hf.2.1, hf.2.2.1, hf.2.2.2.1, hf.2.2.2.2.1⟩
      · refine ⟨by decide, by decide, by decide, by decide⟩
      · have hf := compSafe_facts a (hP a hP')
        exact ⟨hf.2.1, hf.2.2.1, hf.2.2.2.1, hf.2.2.2.2.1⟩
      · refine ⟨by decide, by decide, by decide, by decide⟩
      · have hf := hostSafe_facts a (hA a hA')
        exact ⟨hf.2.2.1, hf.2.2.2.1, hf.2.2.2.2.1, hf.2.2.2.2.2.1⟩
    simp only [Bool.false_and, Bool.not_false, Bool.and_true, Bool.and_eq_true,
      decide_eq_true_eq, ne_eq, char_eq_iff,
      show ('/').toNat = 47 from rfl, show ('?').toNat = 63 from rfl,
      show ('#').toNat = 35 from rfl]
    refine ⟨⟨?_, ?_⟩, ?_⟩ <;> omega
  unfold parseWithAuthority
  dsimp only
  rw [show U ++ ':' :: P ++ '@' :: A ++ '/' :: C =
        (U ++ ':' :: P ++ '@' :: A) ++ '/' :: C from by simp]
  rw [takeWhile_append_stop (U ++ ':' :: P ++ '@' :: A) '/' C hpred (by decide),
    drop_append_cons (U ++ ':' :: P ++ '@' :: A) ('/' :: C)]
  rw [show U ++ ':' :: P ++ '@' :: A = (U ++ ':' :: P) ++ '@' :: A from by simp]
  rw [splitAtLastAt_last (U ++ ':' :: P) A (fun c hc => by
    have hf := hostSafe_facts c (hA c hc)
    simp only [ne_eq, char_eq_iff, show ('@').toNat = 64 from rfl]
    omega)]
  simp only []
  rw [if_neg hA0]
  rw [splitFirst_concat ':' U P (fun c hc => by
    have hf := compSafe_facts c (hU c hc)
    simp only [ne_eq, char_eq_iff, show (':').toNat = 58 from rfl]
    omega)]
  dsimp only
  simp only [Option.getD_some]
  rw [encodeSet_nop userinfoSet U (fun c hc => (compSafe_facts c (hU c hc)).1),
    encodeSet_nop userinfoSet P (fun c hc => (compSafe_facts c (hP c hc)).1)]


theorem searchParamsGet_single (u : URLRec) (E : List Char) (pub : String)
    (hq : u.query = some (⟨("publicUrl=" : String).data ++ E⟩ : String))
    (hE : E = (formEncode pub).data) :
    searchParamsGet u "publicUrl" = some pub := by
  have hEq : ∀ c ∈ E, qSafe c = true := by
    rw [hE]; exact formEncode_chars pub
  unfold searchParamsGet searchPairs
  rw [hq]
  simp only [Option.getD_some]
  rw [splitOn_no_sep '&' _ (by
    intro c hc
    simp only [List.mem_append] at hc
    rcases hc with h | h
    · have hall := (by decide :
        (("publicUrl=" : String).data.all (fun c => decide (c ≠ '&'))) = true)
      rw [List.all_eq_true] at hall
      exact of_decide_eq_true (hall c h)
    · have hf := qSafe_facts c (hEq c h)
      simp only [ne_eq, char_eq_iff, show ('&').toNat = 38 from rfl]
      omega)]
  simp only [List.filterMap_cons, List.filterMap_nil]
  rw [show ("publicUrl=" : String).data ++ E =
        ("publicUrl" : String).data ++ '=' :: E from rfl]
  rw [show (((("publicUrl" : String).data ++ '=' :: E)).isEmpty) = false from rfl]
  simp only [Bool.false_eq_true, if_false]
  rw [splitFirst_concat '=' ("publicUrl" : String).data E (by
    intro c hc
    have hall := (by decide :
      (("publicUrl" : String).data.all (fun c => decide (c ≠ '='))) = true)
    rw [List.all_eq_true] at hall
    exact of_decide_eq_true (hall c hc))]
  simp only []
  simp only [Option.getD_some]
  rw [show ['p', 'u', 'b', 'l', 'i', 'c', 'U', 'r', 'l'] =
        (formEncode "publicUrl").data from by decide,
    formDecode_formEncode]
  rw [hE, formDecode_formEncode pub]
  rfl

theorem parseR2Url_ok_noPub (U P A B : List Char) (usr sk : String)
    (hU : ∀ c ∈ U, compSafe c = true) (hP : ∀ c ∈ P, compSafe c = true)
    (hA : ∀ c ∈ A, hostSafe c = true) (hA0 : A ≠ [])
    (hB : ∀ c ∈ B, bucketSafe c = true) (hB0 : B ≠ [])
    (hdU : decodeURIComponentM ⟨U⟩ = some usr)
    (hdP : decodeURIComponentM ⟨P⟩ = some sk)
    (husr : usr ≠ "") (hsk : sk ≠ "") :
    parseR2Url
        ⟨'r' :: '2' :: ':' :: '/' :: '/' ::
          (U ++ ':' :: P ++ '@' :: A ++ '/' :: B)⟩ =
      .ok { accountId := ⟨A⟩, accessKeyId := usr, secretAccessKey := sk,
            bucket := ⟨B⟩, publicUrl := none } := by
  have hT : ∀ c ∈ U ++ ':' :: P ++ '@' :: A ++ '/' :: B, 32 < c.toNat := by
    intro c hc
    simp only [List.mem_append, List.mem_cons] at hc
    rcases hc with ((h | rfl | h) | rfl | h) | rfl | h
    · exact (compSafe_facts c (hU c h)).2.1
    · decide
    · exact (compSafe_facts c (hP c h)).2.1
    · decide
    · exact (hostSafe_facts c (hA c h)).2.2.1
    · decide
    · exact (bucketSafe_facts c (hB c h)).2.1
  unfold parseR2Url
  dsimp only
  rw [urlParse_r2 _ hT]
  rw [parseWithAuthority_ui U P A B hU hP hA hA0]
  rw [parseAuthRest_noQ U P A B hA hA0 hB]
  simp only []
  rw [if_neg (by decide)]
  rw [hdU, hdP]
  simp only []
  rw [if_neg (by
    simp only [not_or]
    refine ⟨husr, hsk, ?_, ?_⟩
    · show (⟨A⟩ : String) ≠ ""
      intro hc
      exact hA0 ((string_eq_iff _ _).mp hc)
    · show (⟨B⟩ : String) ≠ ""
      intro hc
      exact hB0 ((string_eq_iff _ _).mp hc))]
  rfl


theorem bind_some_eq {α β : Type} (a : α) (f : α → Option β) :
    (some a >>= f) = f a := rfl

theorem setUsername_safe (u : URLRec) (a : String) (h : u.host = some a)
    (ha : a ≠ "") (hs : u.scheme ≠ "file") (s : String)
    (hc : ∀ c ∈ s.data, compSafe c = true) :
    setUsername u s = { u with username := s } := by
  unfold setUsername
  rw [cannotHaveCreds_false u a h ha hs]
  simp only [Bool.false_eq_true, if_false]
  rw [encodeSet_nop userinfoSet s.data (fun c hcc => (compSafe_facts c (hc c hcc)).1)]

theorem setPassword_safe (u : URLRec) (a : String) (h : u.host = some a)
    (ha : a ≠ "") (hs : u.scheme ≠ "file") (s : String)
    (hc : ∀ c ∈ s.data, compSafe c = true) :
    setPassword u s = { u with password := s } := by
  unfold setPassword
  rw [cannotHaveCreds_false u a h ha hs]
  simp only [Bool.false_eq_true, if_false]
  rw [encodeSet_nop userinfoSet s.data (fun c hcc => (compSafe_facts c (hc c hcc)).1)]

theorem userinfoStr_both (u : URLRec) (hun : u.username ≠ "")
    (hpw : u.password ≠ "") :
    userinfoStr u = u.username ++ (":" ++ u.password) ++ "@" := by
  unfold userinfoStr
  rw [if_pos (Or.inl hun), if_pos hpw]

theorem searchParamsSet_emptyq (u : URLRec) (h : u.query = none)
    (n v : String) :
    searchParamsSet u n v =
      { u with query := some (formEncode n ++ "=" ++ formEncode v) } := by
  unfold searchParamsSet
  rw [show searchPairs u = [] from by unfold searchPairs; rw [h]; rfl]
  rw [show setPair [] n v = [(n, v)] from rfl]
  rw [show formSerialize [(n, v)] = formEncode n ++ "=" ++ formEncode v from by
    unfold formSerialize String.intercalate; rfl]

theorem urlSerialize_r2 (un pw a b : String) (hun : un ≠ "") (hpw : pw ≠ "")
    (q : Option String) :
    urlSerialize { scheme := "r2", username := un, password := pw,
                   host := some a, port := none, pathSegs := [b],
                   rawPath := none, query := q, fragment := none } =
      "r2" ++ ":" ++ ("//" ++ (un ++ (":" ++ pw) ++ "@") ++ a ++ "") ++
        ("/" ++ b) ++ (match q with | some qq => "?" ++ qq | none => "") ++ "" := by
  unfold urlSerialize
  rw [userinfoStr_both _ hun hpw]
  rfl

theorem toR2Url_noPub (cfg : R2Config)
    (hA : ∀ c ∈ cfg.accountId.data, hostSafe c = true)
    (hA0 : cfg.accountId ≠ "")
    (hB : ∀ c ∈ cfg.bucket.data, bucketSafe c = true)
    (hAK : cfg.accessKeyId ≠ "") (hSK : cfg.secretAccessKey ≠ "")
    (hpub : cfg.publicUrl = none) :
    toR2Url cfg = some ⟨'r' :: '2' :: ':' :: '/' :: '/' ::
      ((encodeURIComponent cfg.accessKeyId).data ++ ':' ::
        (encodeURIComponent cfg.secretAccessKey).data ++ '@' ::
        cfg.accountId.data ++ '/' :: cfg.bucket.data)⟩ := by
  have hA0' : cfg.accountId.data ≠ [] := fun hc => hA0 ((string_eq_iff _ _).mpr hc)
  unfold toR2Url
  rw [show (("r2://" : String) ++ cfg.accountId ++ "/" ++ cfg.bucket).data
      = 'r' :: '2' :: ':' :: '/' :: '/' ::
        (cfg.accountId.data ++ '/' :: cfg.bucket.data) from by
    simp only [String.data_append]
    simp]
  rw [urlParse_r2 _ (by
    intro c hc
    simp only [List.mem_append, List.mem_cons] at hc
    rcases hc with h | rfl | h
    · exact (hostSafe_facts c (hA c h)).2.2.1
    · decide
    · exact (bucketSafe_facts c (hB c h)).2.1)]
  rw [parseWithAuthority_plain cfg.accountId.data cfg.bucket.data hA hA0' hB]
  rw [bind_some_eq]
  simp only []
  rw [hpub]
  simp only []
  rw [setUsername_safe _ (⟨cfg.accountId.data⟩ : String) rfl hA0
    (show ("r2" : String) ≠ "file" by decide) _ (encodeURIComponent_chars _)]
  rw [setPassword_safe _ (⟨cfg.accountId.data⟩ : String) rfl hA0
    (show ("r2" : String) ≠ "file" by decide) _ (encodeURIComponent_chars _)]
  rw [urlSerialize_r2 (encodeURIComponent cfg.accessKeyId)
    (encodeURIComponent cfg.secretAccessKey) (⟨cfg.accountId.data⟩ : String)
    (⟨cfg.bucket.data⟩ : String) (encodeURIComponent_ne_empty _ hAK)
    (encodeURIComponent_ne_empty _ hSK) none]
  refine congrArg some ((string_eq_iff _ _).mpr ?_)
  simp only [String.data_append]
  simp


theorem toR2Url_withPub (cfg : R2Config) (pub : String)
    (hA : ∀ c ∈ cfg.accountId.data, hostSafe c = true)
    (hA0 : cfg.accountId ≠ "")
    (hB : ∀ c ∈ cfg.bucket.data, bucketSafe c = true)
    (hAK : cfg.accessKeyId ≠ "") (hSK : cfg.secretAccessKey ≠ "")
    (hpub : cfg.publicUrl = some pub) (hp0 : pub ≠ "") :
    toR2Url cfg = some ⟨'r' :: '2' :: ':' :: '/' :: '/' ::
      ((encodeURIComponent cfg.accessKeyId).data ++ ':' ::
        (encodeURIComponent cfg.secretAccessKey).data ++ '@' ::
        cfg.accountId.data ++ '/' ::
        (cfg.bucket.data ++ '?' ::
          (("publicUrl=" : String).data ++ (formEncode pub).data)))⟩ := by
  have hA0' : cfg.accountId.data ≠ [] := fun hc => hA0 ((string_eq_iff _ _).mpr hc)
  unfold toR2Url
  rw [show (("r2://" : String) ++ cfg.accountId ++ "/" ++ cfg.bucket).data
      = 'r' :: '2' :: ':' :: '/' :: '/' ::
        (cfg.accountId.data ++ '/' :: cfg.bucket.data) from by
    simp only [String.data_append]
    simp]
  rw [urlParse_r2 _ (by
    intro c hc
    simp only [List.mem_append, List.mem_cons] at hc
    rcases hc with h | rfl | h
    · exact (hostSafe_facts c (hA c h)).2.2.1
    · decide
    · exact (bucketSafe_facts c (hB c h)).2.1)]
  rw [parseWithAuthority_plain cfg.accountId.data cfg.bucket.data hA hA0' hB]
  rw [bind_some_eq]
  simp only []
  rw [hpub]
  simp only []
  rw [if_pos hp0]
  rw [setUsername_safe _ (⟨cfg.accountId.data⟩ : String) rfl hA0
    (show ("r2" : String) ≠ "file" by decide) _ (encodeURIComponent_chars _)]
  rw [setPassword_safe _ (⟨cfg.accountId.data⟩ : String) rfl hA0
    (show ("r2" : String) ≠ "file" by decide) _ (encodeURIComponent_chars _)]
  rw [searchParamsSet_emptyq _ rfl "publicUrl" pub]
  rw [urlSerialize_r2 (encodeURIComponent cfg.accessKeyId)
    (encodeURIComponent cfg.secretAccessKey) (⟨cfg.accountId.data⟩ : String)
    (⟨cfg.bucket.data⟩ : String) (encodeURIComponent_ne_empty _ hAK)
    (encodeURIComponent_ne_empty _ hSK)
    (some (formEncode "publicUrl" ++ "=" ++ formEncode pub))]
  rw [show formEncode "publicUrl" = "publicUrl" from by decide]
  refine congrArg some ((string_eq_iff _ _).mpr ?_)
  simp only [String.data_append]
  simp

theorem parseR2Url_ok_withPub (U P A B : List Char) (usr sk pub : String)
    (hU : ∀ c ∈ U, compSafe c = true) (hP : ∀ c ∈ P, compSafe c = true)
    (hA : ∀ c ∈ A, hostSafe c = true) (hA0 : A ≠ [])
    (hB : ∀ c ∈ B, bucketSafe c = true) (hB0 : B ≠ [])
    (hdU : decodeURIComponentM ⟨U⟩ = some usr)
    (hdP : decodeURIComponentM ⟨P⟩ = some sk)
    (husr : usr ≠ "") (hsk : sk ≠ "") :
    parseR2Url
        ⟨'r' :: '2' :: ':' :: '/' :: '/' ::
          (U ++ ':' :: P ++ '@' :: A ++ '/' ::
            (B ++ '?' :: (("publicUrl=" : String).data ++ (formEncode pub).data)))⟩ =
      .ok { accountId := ⟨A⟩, accessKeyId := usr, secretAccessKey := sk,
            bucket := ⟨B⟩, publicUrl := some pub } := by
  have hqs : ∀ c ∈ ("publicUrl=" : String).data ++ (formEncode pub).data,
      qSafe c = true := by
    intro c hc
    simp only [List.mem_append] at hc
    rcases hc with h | h
    · have hall := (by decide :
        (("publicUrl=" : String).data.all qSafe) = true)
      rw [List.all_eq_true] at hall
      exact hall c h
    · exact formEncode_chars pub c h
  have hT : ∀ c ∈ U ++ ':' :: P ++ '@' :: A ++ '/' ::
      (B ++ '?' :: (("publicUrl=" : String).data ++ (formEncode pub).data)),
      32 < c.toNat := by
    intro c hc
    simp only [List.mem_append, List.mem_cons] at hc
    rcases hc with ((h | rfl | h) | rfl | h) | rfl | h | rfl | h
    · exact (compSafe_facts c (hU c h)).2.1
    · decide
    · exact (compSafe_facts c (hP c h)).2.1
    · decide
    · exact (hostSafe_facts c (hA c h)).2.2.1
    · decide
    · exact (bucketSafe_facts c (hB c h)).2.1
    · decide
    · refine (qSafe_facts c (hqs c ?_)).2.1
      simp only [List.mem_append, List.mem_cons]
      exact h
  unfold parseR2Url
  dsimp only
  rw [urlParse_r2 _ hT]
  rw [parseWithAuthority_ui U P A
    (B ++ '?' :: (("publicUrl=" : String).data ++ (formEncode pub).data))
    hU hP hA hA0]
  rw [parseAuthRest_withQ U P A B
    (("publicUrl=" : String).data ++ (formEncode pub).data) hA hA0 hB hqs]
  simp only []
  rw [if_neg (by decide)]
  rw [hdU, hdP]
  simp only []
  rw [searchParamsGet_single _ ((formEncode pub).data) pub rfl rfl]
  rw [if_neg (by
    simp only [not_or]
    refine ⟨husr, hsk, ?_, ?_⟩
    · show (⟨A⟩ : String) ≠ ""
      intro hc
      exact hA0 ((string_eq_iff _ _).mp hc)
    · show (⟨B⟩ : String) ≠ ""
      intro hc
      exact hB0 ((string_eq_iff _ _).mp hc))]
  rfl


/-- C2 (corrected): the serialize/parse round trip `parseR2Url (toR2Url d) = d`
holds for every connection descriptor whose accessKeyId and secretAccessKey are
non-empty (arbitrary strings — they are percent-encoded and decoded exactly),
whose accountId is non-empty and consists of URL-host-safe characters
(alphanumerics and `- _ . ~`), whose bucket is non-empty and consists of
alphanumerics and `- _ ~`, and whose publicUrl is absent or non-empty.  It does
not hold for every descriptor with non-empty fields: a bucket containing a
space (see the counterexample) is percent-encoded by serialisation but not
decoded by parsing, so the round trip returns a different bucket. -/
theorem r2_connection_round_trip (cfg : R2Config)
    (hAK : cfg.accessKeyId ≠ "") (hSK : cfg.secretAccessKey ≠ "")
    (hA : ∀ c ∈ cfg.accountId.data, hostSafe c = true)
    (hA0 : cfg.accountId ≠ "")
    (hB : ∀ c ∈ cfg.bucket.data, bucketSafe c = true)
    (hB0 : cfg.bucket ≠ "")
    (hpub : cfg.publicUrl = none ∨ ∃ pub, cfg.publicUrl = some pub ∧ pub ≠ "") :
    ∃ s, toR2Url cfg = some s ∧ parseR2Url s = Except.ok cfg := by
  have hA0' : cfg.accountId.data ≠ [] :=
    fun hc => hA0 ((string_eq_iff _ _).mpr hc)
  have hB0' : cfg.bucket.data ≠ [] :=
    fun hc => hB0 ((string_eq_iff _ _).mpr hc)
  rcases hpub with hpub | ⟨pub, hpub, hp0⟩
  · refine ⟨_, toR2Url_noPub cfg hA hA0 hB hAK hSK hpub, ?_⟩
    have hok := parseR2Url_ok_noPub
      (encodeURIComponent cfg.accessKeyId).data
      (encodeURIComponent cfg.secretAccessKey).data
      cfg.accountId.data cfg.bucket.data
      cfg.accessKeyId cfg.secretAccessKey
      (encodeURIComponent_chars _) (encodeURIComponent_chars _)
      hA hA0' hB hB0'
      (decodeURIComponentM_encode _) (decodeURIComponentM_encode _) hAK hSK
    rw [hok]
    obtain ⟨A, K, S, B, Pu⟩ := cfg
    have hpu : Pu = none := hpub
    rw [hpu]
  · refine ⟨_, toR2Url_withPub cfg pub hA hA0 hB hAK hSK hpub hp0, ?_⟩
    have hok := parseR2Url_ok_withPub
      (encodeURIComponent cfg.accessKeyId).data
      (encodeURIComponent cfg.secretAccessKey).data
      cfg.accountId.data cfg.bucket.data
      cfg.accessKeyId cfg.secretAccessKey pub
      (encodeURIComponent_chars _) (encodeURIComponent_chars _)
      hA hA0' hB hB0'
      (decodeURIComponentM_encode _) (decodeURIComponentM_encode _) hAK hSK
    rw [hok]
    obtain ⟨A, K, S, B, Pu⟩ := cfg
    have hpu : Pu = some pub := hpub
    rw [hpu]

/-- Witness for C2: the round trip at the concrete descriptor `cfg₀`. -/
theorem r2_connection_round_trip_witness :
    ∃ s, toR2Url cfg₀ = some s ∧ parseR2Url s = Except.ok cfg₀ :=
  r2_connection_round_trip cfg₀ (by decide) (by decide) (by decide) (by decide)
    (by decide) (by decide) (Or.inl rfl)

/-- Counterexample for C2 as stated: for the descriptor with bucket "b c"
(all four fields non-empty), serialisation percent-encodes the space but
parsing does not decode the path, so the round trip returns a descriptor
with bucket "b%20c", not the original. -/
theorem r2_connection_round_trip_counterexample :
    toR2Url cfgSpace = some "r2://k:s@a/b%20c" ∧
    parseR2Url "r2://k:s@a/b%20c" =
      Except.ok { accountId := "a", accessKeyId := "k",
                  secretAccessKey := "s", bucket := "b%20c" } ∧
    ({ accountId := "a", accessKeyId := "k", secretAccessKey := "s",
       bucket := "b%20c" } : R2Config) ≠ cfgSpace := by
  refine ⟨by decide, ?_, by decide⟩
  have hk : decodeURIComponentM "k" = some "k" := by
    have h1 : ("k" : String) = encodeURIComponent "k" := by decide
    rw [h1, decodeURIComponentM_encode, ← h1]
  have hs2 : decodeURIComponentM "s" = some "s" := by
    have h1 : ("s" : String) = encodeURIComponent "s" := by decide
    rw [h1, decodeURIComponentM_encode, ← h1]
  unfold parseR2Url
  rw [show urlParse ("r2://k:s@a/b%20c" : String).data =
    some { scheme := "r2", username := "k", password := "s", host := some "a",
           port := none, pathSegs := ["b%20c"], rawPath := none,
           query := none, fragment := none } from by decide]
  simp only []
  rw [if_neg (by decide)]
  rw [hk, hs2]
  simp only []
  rw [if_neg (by decide)]
  rfl


end R2Spec
